import Mathlib

set_option maxRecDepth 10000
set_option linter.unusedVariables false

/-!
Shallow embedding of the `puzzles` repository (Sudoku and Tents-and-Trees
solvers) and proofs about the claims of its specification.

Conventions of the embedding:
* Rust `Result<T, E>` becomes `Except E T` (or `Except String T` for
  `anyhow::Result`); context strings are kept short.
* Rust panics (failed `assert!`/arithmetic underflow in debug builds) are
  modelled as `Except.error` values whose message starts with "panic"; no
  claim below depends on the distinction.
* `ndarray::Array2` becomes a rectangular `List (List _)`; well-formedness
  (`Map.WF`) captures the shape invariants that `Array2` and `Map::new`
  enforce in the source.
* The Rust solve loops (`loop`/`while`) become fuel-indexed functions
  returning `Option`, where `none` means the fuel ran out.
-/

/-- Decidable equality for `Except`, used to evaluate the solver results
of concrete runs. -/
instance {ε α : Type} [DecidableEq ε] [DecidableEq α] :
    DecidableEq (Except ε α) := fun a b =>
  match a, b with
  | .ok x, .ok y =>
    if h : x = y then .isTrue (by rw [h])
    else .isFalse (by intro hh; cases hh; exact h rfl)
  | .error x, .error y =>
    if h : x = y then .isTrue (by rw [h])
    else .isFalse (by intro hh; cases hh; exact h rfl)
  | .ok _, .error _ => .isFalse (by intro hh; cases hh)
  | .error _, .ok _ => .isFalse (by intro hh; cases hh)

namespace Puzzles

/-- `location.rs`: a grid location (row, col). -/
structure Loc where
  row : Nat
  col : Nat
deriving DecidableEq, Repr

/-- `Location::transpose`. -/
def Loc.transpose (l : Loc) : Loc := ⟨l.col, l.row⟩

/-- `Location::adjacents`: the 4 orthogonal neighbours (in source order:
up, right, down, left), `none` when outside `dim`. -/
def Loc.adjacents (l : Loc) (dim : Nat × Nat) : List (Option Loc) :=
  let (maxRow, maxCol) := dim
  [ if l.row > 0 then some ⟨l.row - 1, l.col⟩ else none,
    if l.col < maxCol - 1 then some ⟨l.row, l.col + 1⟩ else none,
    if l.row < maxRow - 1 then some ⟨l.row + 1, l.col⟩ else none,
    if l.col > 0 then some ⟨l.row, l.col - 1⟩ else none ]

/-- `Location::neighbors`: the 8 neighbours in source order. -/
def Loc.neighbors (l : Loc) (dim : Nat × Nat) : List (Option Loc) :=
  let (maxRow, maxCol) := dim
  [ if l.row > 0 then some ⟨l.row - 1, l.col⟩ else none,
    if l.row > 0 && l.col < maxCol - 1 then some ⟨l.row - 1, l.col + 1⟩ else none,
    if l.col < maxCol - 1 then some ⟨l.row, l.col + 1⟩ else none,
    if l.row < maxRow - 1 && l.col < maxCol - 1 then some ⟨l.row + 1, l.col + 1⟩ else none,
    if l.row < maxRow - 1 then some ⟨l.row + 1, l.col⟩ else none,
    if l.row < maxRow - 1 && l.col > 0 then some ⟨l.row + 1, l.col - 1⟩ else none,
    if l.col > 0 then some ⟨l.row, l.col - 1⟩ else none,
    if l.row > 0 && l.col > 0 then some ⟨l.row - 1, l.col - 1⟩ else none ]

/-- `Location::grid_iter`: all locations of an `h × w` grid in row-major
order (mirrors `GridIter`). -/
def Loc.gridIter (dim : Nat × Nat) : List Loc :=
  let (h, w) := dim
  (List.range (h * w)).map (fun i => ⟨i / w, i % w⟩)

namespace Camping

/-- `camping/map.rs`: `Tile`. -/
inductive Tile where
  | tree
  | tent
  | free
  | blocked
deriving DecidableEq, Repr

/-- `camping/map.rs`: `PlacementError`. -/
inductive PlacementError where
  | outOfBounds (location : Loc)
  | notFree (location : Loc) (tile : Tile)
deriving DecidableEq, Repr

/-- `camping/map.rs`: `Map` (an `Array2<Tile>` with row/column
requirements). -/
structure Map where
  tiles : List (List Tile)
  rowReq : List Nat
  colReq : List Nat
deriving DecidableEq, Repr

/-- Height: `tiles.shape()[0]`. -/
def Map.height (m : Map) : Nat := m.tiles.length

/-- Width: `tiles.shape()[1]` (for a rectangular array this is the length
of any row; `Array2` with zero rows records the declared width, which the
parser ties to `col_requirements.len()`). -/
def Map.width (m : Map) : Nat := m.colReq.length

/-- `Map::dim`. -/
def Map.dim (m : Map) : Nat × Nat := (m.height, m.width)

/-- The shape invariants `Map::new` asserts and `Array2` guarantees:
rectangular tiles matching both requirement vectors. -/
def Map.WF (m : Map) : Prop :=
  m.tiles.length = m.rowReq.length ∧ ∀ r ∈ m.tiles, r.length = m.colReq.length

instance (m : Map) : Decidable m.WF := by
  unfold Map.WF; infer_instance

/-- `Map::get`: `None` exactly when the location is outside the array. -/
def Map.get (m : Map) (l : Loc) : Option Tile :=
  (m.tiles.get? l.row).bind (fun row => row.get? l.col)

/-- `Map::in_bounds`. -/
def Map.inBounds (m : Map) (l : Loc) : Bool :=
  decide (l.row < m.height) && decide (l.col < m.width)

/-- Write a tile (the `self.tiles[(row, col)] = t` assignment; callers
establish that the location is in bounds first). -/
def Map.setTile (m : Map) (l : Loc) (t : Tile) : Map :=
  { m with tiles := m.tiles.modify (fun row => row.set l.col t) l.row }

/-- `Map::ref_add_tent` (returning the new map in place of `Ok(())`). -/
def Map.refAddTent (m : Map) (l : Loc) : Except PlacementError Map :=
  match m.get l with
  | some tile =>
    if tile ≠ Tile.free then
      .error (.notFree l tile)
    else
      .ok (m.setTile l Tile.tent)
  | none => .error (.outOfBounds l)

/-- `Map::ref_add_blocked`. -/
def Map.refAddBlocked (m : Map) (l : Loc) : Except PlacementError Map :=
  match m.get l with
  | some tile =>
    if tile ≠ Tile.free then
      .error (.notFree l tile)
    else
      .ok (m.setTile l Tile.blocked)
  | none => .error (.outOfBounds l)

/-- `Map::ref_add_tent` with the `&mut self` calling convention made
explicit: the returned map is the state after the call (unchanged on the
error paths, where the source returns before the assignment). -/
def Map.refAddTentMut (m : Map) (l : Loc) : Map × Except PlacementError Unit :=
  match m.refAddTent l with
  | .ok m2 => (m2, .ok ())
  | .error e => (m, .error e)

/-- `Map::ref_add_blocked` with the `&mut self` calling convention made
explicit. -/
def Map.refAddBlockedMut (m : Map) (l : Loc) : Map × Except PlacementError Unit :=
  match m.refAddBlocked l with
  | .ok m2 => (m2, .ok ())
  | .error e => (m, .error e)

/-- `Map::adjacents` restricted to the tiles (the `(Location, Tile)` pairs
with the `None` entries flattened away, as every consumer in the source
does). The source unwraps `get`; for in-bounds locations of a well-formed
map the `getD` default is never used. -/
def Map.adjacentTiles (m : Map) (l : Loc) : List Tile :=
  ((l.adjacents m.dim).filterMap id).map (fun l2 => (m.get l2).getD Tile.free)

/-- `Map::neighbors`, flattened to tiles like `adjacentTiles`. -/
def Map.neighborTiles (m : Map) (l : Loc) : List Tile :=
  ((l.neighbors m.dim).filterMap id).map (fun l2 => (m.get l2).getD Tile.free)

/-- Row `i` of the tile array (`tiles().row(i)`). -/
def Map.rowTiles (m : Map) (i : Nat) : List Tile := (m.tiles.get? i).getD []

/-- Column `i` of the tile array (`tiles().column(i)`). -/
def Map.colTiles (m : Map) (i : Nat) : List Tile :=
  m.tiles.filterMap (fun row => row.get? i)

/-- `camping/map.rs`: `InvalidMapError` (payloads dropped where unused). -/
inductive InvalidMapError where
  | tooFewPossibleTentsInRow (rowIndex possible required : Nat)
  | tooManyTentsInRow (rowIndex placed required : Nat)
  | tooFewPossibleTentsInCol (colIndex possible required : Nat)
  | tooManyTentsInCol (colIndex placed required : Nat)
  | tentNotAdjacentToTree (location : Loc)
  | neighbouringTents (loc1 loc2 : Loc)
deriving DecidableEq, Repr

/-- Count of tiles satisfying a predicate. -/
def countTiles (ts : List Tile) (p : Tile → Bool) : Nat := (ts.filter p).length

/-- One row/column check of `Map::is_valid` rule 1. -/
def checkLine (ts : List Tile) (req : Nat) : Option (Nat × Nat) :=
  let numTents := countTiles ts (fun t => t == Tile.tent)
  let numPoss := countTiles ts (fun t => t == Tile.free || t == Tile.tent)
  if numTents > req then some (0, numTents)
  else if numPoss < req then some (1, numPoss)
  else none

/-- `Map::is_valid`, rule 1 over rows. -/
def Map.validRows (m : Map) : Except InvalidMapError Unit :=
  go 0 m.tiles
where
  go : Nat → List (List Tile) → Except InvalidMapError Unit
    | _, [] => .ok ()
    | i, row :: rest =>
      let req := (m.rowReq.get? i).getD 0
      match checkLine row req with
      | some (0, n) => .error (.tooManyTentsInRow i n req)
      | some (_, n) => .error (.tooFewPossibleTentsInRow i n req)
      | none => go (i + 1) rest

/-- `Map::is_valid`, rule 1 over columns. -/
def Map.validCols (m : Map) : Except InvalidMapError Unit :=
  go 0 m.width
where
  go : Nat → Nat → Except InvalidMapError Unit
    | _, 0 => .ok ()
    | i, rem + 1 =>
      let req := (m.colReq.get? i).getD 0
      match checkLine (m.colTiles i) req with
      | some (0, n) => .error (.tooManyTentsInCol i n req)
      | some (_, n) => .error (.tooFewPossibleTentsInCol i n req)
      | none => go (i + 1) rem

/-- `Map::is_valid`, rules 2 and 3 for a single tile. -/
def Map.checkTentAt (m : Map) (l : Loc) : Except InvalidMapError Unit :=
  match m.get l with
  | some Tile.tent =>
    if (m.adjacentTiles l).all (fun t => t ≠ Tile.tree) then
      .error (.tentNotAdjacentToTree l)
    else if (m.neighborTiles l).any (fun t => t == Tile.tent) then
      .error (.neighbouringTents l l)
    else .ok ()
  | _ => .ok ()

/-- `Map::is_valid`, rules 2 and 3 over all tiles (indexed iteration). -/
def Map.validTents (m : Map) : Except InvalidMapError Unit :=
  go (Loc.gridIter m.dim)
where
  go : List Loc → Except InvalidMapError Unit
    | [] => .ok ()
    | l :: rest =>
      match m.checkTentAt l with
      | .error e => .error e
      | .ok () => go rest

/-- `Map::is_valid`. -/
def Map.isValid (m : Map) : Except InvalidMapError Unit := do
  m.validRows
  m.validCols
  m.validTents

/-- `Map::is_complete`: no free tiles and valid. -/
def Map.isComplete (m : Map) : Bool :=
  (m.tiles.all (fun row => row.all (fun t => t ≠ Tile.free))) && m.isValid.isOk

/-- `Map::num_possible_row_tents`: the skip-one-after-free counter. -/
def possibleTents : List Tile → Bool → Nat
  | [], _ => 0
  | t :: rest, prev =>
    if prev then possibleTents rest false
    else if t == Tile.free then 1 + possibleTents rest true
    else possibleTents rest false

/-- `Map::num_possible_row_tents` on row `i`. -/
def Map.numPossibleRowTents (m : Map) (i : Nat) : Nat :=
  possibleTents (m.rowTiles i) false

/-- `Map::num_possible_col_tents` on column `i`. -/
def Map.numPossibleColTents (m : Map) (i : Nat) : Nat :=
  possibleTents (m.colTiles i) false

/-- `MaybeTransposedMap`: either the map itself or its zero-copy
`TransposedMap` view (`transposed = true`). -/
structure MView where
  transposed : Bool
  m : Map

/-- `width()` through the view. -/
def MView.width (v : MView) : Nat :=
  if v.transposed then v.m.height else v.m.width

/-- Transpose the location iff the view is transposed. -/
def MView.loc (v : MView) (l : Loc) : Loc :=
  if v.transposed then l.transpose else l

/-- `get` through the view. -/
def MView.get (v : MView) (l : Loc) : Option Tile := v.m.get (v.loc l)

/-- `row_requirements()` through the view. -/
def MView.rowReqs (v : MView) : List Nat :=
  if v.transposed then v.m.colReq else v.m.rowReq

/-- `tiles().row(i)` through the view. -/
def MView.rowTiles (v : MView) (i : Nat) : List Tile :=
  if v.transposed then v.m.colTiles i else v.m.rowTiles i

/-- `num_possible_row_tents` through the view. -/
def MView.numPossibleRowTents (v : MView) (i : Nat) : Nat :=
  if v.transposed then v.m.numPossibleColTents i else v.m.numPossibleRowTents i

/-- `map.add_blocked(loc).is_ok()`: attempt a blocked placement, keeping
the old map on failure and reporting whether it succeeded. -/
def MView.addBlockedOk (v : MView) (l : Loc) : MView × Bool :=
  match v.m.refAddBlocked (v.loc l) with
  | .ok m2 => (⟨v.transposed, m2⟩, true)
  | .error _ => (v, false)

/-- `map.add_tent(loc).with_context(..)?`: a tent placement whose failure
is propagated as an error. -/
def MView.addTentE (v : MView) (l : Loc) : Except String MView :=
  match v.m.refAddTent (v.loc l) with
  | .ok m2 => .ok ⟨v.transposed, m2⟩
  | .error _ => .error "Failed to add tent. Expected position to be free."

/-- `map.add_blocked(loc).with_context(..)?`. -/
def MView.addBlockedE (v : MView) (l : Loc) : Except String MView :=
  match v.m.refAddBlocked (v.loc l) with
  | .ok m2 => .ok ⟨v.transposed, m2⟩
  | .error _ => .error "Failed to add blocked. Expected position to be free."

/-- `camping/solver.rs`: `block_row_if_finished`. -/
def blockRowIfFinished (v : MView) (rowIndex requirement : Nat) : MView × Bool :=
  let numTents := countTiles (v.rowTiles rowIndex) (fun t => t == Tile.tent)
  if numTents == requirement then
    (List.range v.width).foldl
      (fun acc colIndex =>
        let r := acc.1.addBlockedOk ⟨rowIndex, colIndex⟩
        (r.1, acc.2 || r.2))
      (v, false)
  else (v, false)

/-- `camping/solver.rs`: `run_iter`, generic in the action's extra state
`σ`.  The cursor walks the columns of `rowIndex`, invoking `action` on
each maximal run `[runStart, runEnd)` of free cells; a `Tent` must start
its own run (`assert_eq!(run_start, col_index)`, modelled as a panic
error). -/
def runIter (v : MView) (rowIndex : Nat) (s : σ)
    (action : MView → σ → Nat → Nat → Except String (MView × σ)) :
    Except String (MView × σ) :=
  go v s 0 (List.range (v.width)) v.width
where
  go (v : MView) (s : σ) (runStart : Nat) :
      List Nat → Nat → Except String (MView × σ)
    | [], width =>
      if runStart < width then action v s runStart width else .ok (v, s)
    | colIndex :: rest, width =>
      match v.get ⟨rowIndex, colIndex⟩ with
      | none => .error "Location is outside of the map."
      | some Tile.tree =>
        if colIndex - runStart > 0 then
          match action v s runStart colIndex with
          | .error e => .error e
          | .ok (v2, s2) => go v2 s2 (colIndex + 1) rest width
        else go v s (colIndex + 1) rest width
      | some Tile.blocked =>
        if colIndex - runStart > 0 then
          match action v s runStart colIndex with
          | .error e => .error e
          | .ok (v2, s2) => go v2 s2 (colIndex + 1) rest width
        else go v s (colIndex + 1) rest width
      | some Tile.tent =>
        if runStart == colIndex then go v s (colIndex + 1) rest width
        else .error "panic: assert_eq(run_start, col_index) in run_iter"
      | some Tile.free => go v s runStart rest width

/-- Block the cells directly above and below one run column (one step of
the saturation action's first loop). -/
def blockVertStep (rowIndex : Nat) (acc : MView × Bool) (colIndex : Nat) :
    MView × Bool :=
  let acc1 :=
    if rowIndex > 0 then
      let r := acc.1.addBlockedOk ⟨rowIndex - 1, colIndex⟩
      (r.1, acc.2 || r.2)
    else acc
  let r := acc1.1.addBlockedOk ⟨rowIndex + 1, colIndex⟩
  (r.1, acc1.2 || r.2)

/-- The corner blocks of an odd run (results deliberately ignored in the
source). -/
def blockCorners (rowIndex runStart runEnd : Nat) (v : MView) : MView :=
  let v := if rowIndex > 0 ∧ runStart > 0 then
    (v.addBlockedOk ⟨rowIndex - 1, runStart - 1⟩).1 else v
  let v := if rowIndex > 0 then (v.addBlockedOk ⟨rowIndex - 1, runEnd⟩).1 else v
  let v := if runStart > 0 then
    (v.addBlockedOk ⟨rowIndex + 1, runStart - 1⟩).1 else v
  (v.addBlockedOk ⟨rowIndex + 1, runEnd⟩).1

/-- Fill an odd run with alternating tents (even offsets) and blocked
(odd offsets); both placements propagate failure. -/
def fillAlternate (rowIndex runStart : Nat) (v : MView) :
    Nat → Nat → Except String MView
  | _, 0 => .ok v
  | i, n + 1 => do
    let l : Loc := ⟨rowIndex, runStart + i⟩
    let v2 ← if i % 2 == 0 then v.addTentE l else v.addBlockedE l
    fillAlternate rowIndex runStart v2 (i + 1) n

/-- The saturation action of `handle_row_runs` (`possible = required -
current`): block the vertical neighbours of every run; fill odd runs with
alternating tents/blocked and block the cells diagonal to the run ends. -/
def saturationAction (rowIndex : Nat) (v : MView) (changed : Bool)
    (runStart runEnd : Nat) : Except String (MView × Bool) :=
  let runLength := runEnd - runStart
  if runLength ≠ 0 then
    let acc := (List.range' runStart runLength).foldl
      (blockVertStep rowIndex) (v, changed)
    if runLength % 2 == 1 then
      let v2 := blockCorners rowIndex runStart runEnd acc.1
      match fillAlternate rowIndex runStart v2 0 runLength with
      | .error e => .error e
      | .ok v3 => .ok (v3, true)
    else .ok acc
  else .ok (v, changed)

/-- The near-saturation action of `handle_row_runs` (`possible = required
- current + 1`): when two odd runs are separated by a single cell, block
that cell's vertical neighbours.  State: `(changed, previous run)`. -/
def nearSaturationAction (rowIndex : Nat) (v : MView)
    (s : Bool × Option (Nat × Nat)) (runStart runEnd : Nat) :
    Except String (MView × (Bool × Option (Nat × Nat))) :=
  if runEnd - runStart = 0 then
    .error "panic: assert(run_end - run_start > 0)"
  else
    match s.2 with
    | some (prevStart, prevEnd) =>
      if runStart - prevEnd == 1 ∧ (prevEnd - prevStart) % 2 == 1 ∧
          (runEnd - runStart) % 2 == 1 then
        let acc := blockVertStep rowIndex (v, s.1) prevEnd
        .ok (acc.1, (acc.2, some (runStart, runEnd)))
      else .ok (v, (s.1, some (runStart, runEnd)))
    | none => .ok (v, (s.1, some (runStart, runEnd)))

/-- `camping/solver.rs`: `handle_row_runs`.  The `requirement - num_cur`
subtractions underflow (a debug-build panic) when the row holds more
tents than required; that is modelled as a panic error. -/
def handleRowRuns (v : MView) (rowIndex requirement : Nat) :
    Except String (MView × Bool) :=
  let poss := v.numPossibleRowTents rowIndex
  let cur := countTiles (v.rowTiles rowIndex) (fun t => t == Tile.tent)
  if cur > requirement then
    .error "panic: usize underflow in handle_row_runs"
  else if poss == requirement - cur then
    match runIter v rowIndex false (saturationAction rowIndex) with
    | .error e => .error e
    | .ok (v2, changed) => .ok (v2, changed)
  else if poss == requirement - cur + 1 then
    match runIter v rowIndex (false, none) (nearSaturationAction rowIndex) with
    | .error e => .error e
    | .ok (v2, s2) => .ok (v2, s2.1)
  else .ok (v, false)

/-- `camping/solver.rs`: `handle_rows`. -/
def handleRows (v : MView) : Except String (MView × Bool) :=
  go v false 0 v.rowReqs
where
  go (v : MView) (changed : Bool) (i : Nat) :
      List Nat → Except String (MView × Bool)
    | [] => .ok (v, changed)
    | req :: rest =>
      match handleRowRuns v i req with
      | .error e => .error e
      | .ok (v2, c1) =>
        let r := blockRowIfFinished v2 i req
        go r.1 (changed || c1 || r.2) (i + 1) rest

/-- `camping/solver.rs`: `fill_tents`: process rows, then columns through
the transposed view; the final `assert_eq!(changed, old_map != *map)` is
modelled as a panic error. -/
def fillTents (m : Map) : Except String (Map × Bool) := do
  let (v1, c1) ← handleRows ⟨false, m⟩
  let (v2, c2) ← handleRows ⟨true, v1.m⟩
  let changed := c1 || c2
  if changed = (m ≠ v2.m) then
    return (v2.m, changed)
  else
    .error "panic: assert_eq(changed, old_map != map) in fill_tents"

/-- The per-cell condition of `presolve`: the cell is free and either
touches a tent (8-neighbourhood) or has no orthogonally adjacent tree. -/
def presolveCond (m : Map) (l : Loc) : Bool :=
  m.get l == some Tile.free &&
    ((m.neighborTiles l).any (fun t => t == Tile.tent) ||
      ! (m.adjacentTiles l).any (fun t => t == Tile.tree))

/-- The mutation pass of `presolve` over a list of locations.  The
`add_blocked(loc).expect(..)` cannot fail (the condition checked the cell
free); the error branch keeps the map. -/
def presolveScan : Map → List Loc → Map
  | acc, [] => acc
  | acc, l :: rest =>
    presolveScan
      (if presolveCond acc l then
        match acc.refAddBlocked l with
        | .ok nxt => nxt
        | .error _ => acc
      else acc)
      rest

/-- `camping/solver.rs`: `presolve`: block every free cell that touches a
tent (8-neighbourhood) or has no orthogonally adjacent tree, then check
validity. -/
def presolve (m : Map) : Except String Map :=
  let m2 := presolveScan m (Loc.gridIter m.dim)
  if (m2.isValid).isOk then .ok m2 else .error "presolve: invalid map"

/-- `camping/solver.rs`: `solve_step`: one `fill_tents` pass followed by a
validity check (whose failure is returned as an error — the `?` in
`solve` then propagates it). -/
def solveStep (m : Map) : Except String (Map × Bool) := do
  let (m2, changed) ← fillTents m
  if (m2.isValid).isOk then
    if changed ∧ m = m2 then
      .error "panic: ensure(old_map != map) in solve_step"
    else
      return (m2, changed)
  else
    .error "solve_step: invalid map"

/-- `GuessIter::next`: starting from cursor position `cur` of the
row-major grid iterator, find the next `Free` cell; the returned `Bool`
is the `tile` flag (always `true`: guess a tent). -/
def guessNextGo (m : Map) : Nat → Nat → Option (Loc × Bool × Nat)
  | 0, _ => none
  | fuel + 1, cur =>
    if cur < m.height * m.width then
      let l : Loc := ⟨cur / m.width, cur % m.width⟩
      if m.get l == some Tile.free then some (l, true, cur + 1)
      else guessNextGo m fuel (cur + 1)
    else none

/-- `GuessIter::next` (wrapper computing the remaining-cell fuel). -/
def guessNext (m : Map) (cur : Nat) : Option (Loc × Bool × Nat) :=
  guessNextGo m (m.height * m.width - cur) cur

/-- `map.add_tent(loc).expect(..)`: the panic branch is unreachable
because the location was checked `Free`; keep the old map there. -/
def addTentExpect (m : Map) (l : Loc) : Map :=
  match m.refAddTent l with
  | .ok m2 => m2
  | .error _ => m

/-- `camping/solver.rs`: `next_try`: pop frames until one yields a fresh
guess; `none` when the stack is exhausted.  The stack is a list with its
top at the head (the source pushes/pops at the end of a `Vec`). -/
def nextTry : List (Map × Nat) → Option (Map × List (Map × Nat))
  | [] => none
  | (prevMap, gi) :: rest =>
    match guessNext prevMap gi with
    | some (l, tile, gi2) =>
      let m2 := if tile then addTentExpect prevMap l
                else (prevMap.refAddBlocked l).toOption.getD prevMap
      some (m2, (prevMap, gi2) :: rest)
    | none => nextTry rest

/-- `camping/solver.rs`: the body of `solve`'s `loop`, with fuel (`none`
when the fuel runs out). -/
def solveLoop : Nat → Map → List (Map × Nat) →
    Option (Except String (Option Map))
  | 0, _, _ => none
  | fuel + 1, cur, stack =>
    match solveStep cur with
    | .error e => some (.error e)
    | .ok (cur2, changed) =>
      if (cur2.isValid).isOk = false then
        match nextTry stack with
        | none => some (.ok none)
        | some (next, stack2) => solveLoop fuel next stack2
      else if cur2.isComplete then some (.ok (some cur2))
      else if changed = false then
        match guessNext cur2 0 with
        | some (l, tile, gi2) =>
          let m2 := if tile then addTentExpect cur2 l
                    else (cur2.refAddBlocked l).toOption.getD cur2
          solveLoop fuel m2 ((cur2, gi2) :: stack)
        | none =>
          match nextTry stack with
          | none => some (.ok none)
          | some (next, stack2) => solveLoop fuel next stack2
      else solveLoop fuel cur2 stack

/-- `camping/solver.rs`: `solve`. -/
def solve (fuel : Nat) (m : Map) : Option (Except String (Option Map)) :=
  match presolve m with
  | .error e => some (.error e)
  | .ok m2 => solveLoop fuel m2 []

/-- The 3×4 map used as the concrete failing input for the claim about
contradiction recovery: row requirements `[1,1,0]`, column requirements
`[0,2,0,1]`, trees at (0,2), (2,1) and (2,3), all other tiles free. -/
def contraMap : Map :=
  { tiles :=
      [ [Tile.free, Tile.free, Tile.tree, Tile.free],
        [Tile.free, Tile.free, Tile.free, Tile.free],
        [Tile.free, Tile.tree, Tile.free, Tile.tree] ],
    rowReq := [1, 1, 0],
    colReq := [0, 2, 0, 1] }

/-- Semantic property: a map has no `Free` tile. -/
def Map.noFree (m : Map) : Bool :=
  m.tiles.all (fun row => row.all (fun t => t ≠ Tile.free))

/-- Semantic property: every row's tent count equals its requirement. -/
def Map.rowCountsExact (m : Map) : Prop :=
  ∀ i < m.height,
    countTiles (m.rowTiles i) (fun t => t == Tile.tent) = (m.rowReq.get? i).getD 0

/-- Semantic property: every column's tent count equals its requirement. -/
def Map.colCountsExact (m : Map) : Prop :=
  ∀ i < m.width,
    countTiles (m.colTiles i) (fun t => t == Tile.tent) = (m.colReq.get? i).getD 0

/-- Semantic property: every tent has an orthogonally adjacent tree. -/
def Map.tentsByTrees (m : Map) : Prop :=
  ∀ l, m.get l = some Tile.tent → Tile.tree ∈ m.adjacentTiles l

/-- Semantic property: no tent has another tent among its 8 neighbours. -/
def Map.tentsApart (m : Map) : Prop :=
  ∀ l, m.get l = some Tile.tent → Tile.tent ∉ m.neighborTiles l

end Camping

namespace Sudoku

/-!
### `sudoku/value_set.rs`

A `ValueSet` is a 9-bit mask (a `u16` whose bits 9..15 are always zero by
the source's invariant): bit `i` means value `i + 1` is in the set.
-/

/-- `ValueSet::ALL`. -/
def vsAll : Nat := 511

/-- `ValueSet::NONE`. -/
def vsNone : Nat := 0

/-- `ValueSet::from_value`. -/
def vsFromValue (v : Nat) : Nat := 2 ^ (v - 1)

/-- `ValueSet::contains`. -/
def vsContains (s v : Nat) : Bool := s.testBit (v - 1)

/-- `ValueSet::iter`: the member values in ascending order. -/
def vsIter (s : Nat) : List Nat :=
  ((List.range 9).filter (fun i => s.testBit i)).map (fun i => i + 1)

/-- `ValueSet::len` (`count_ones`; masks never exceed 9 bits). -/
def vsLen (s : Nat) : Nat := (vsIter s).length

/-- `ValueSet::single`. -/
def vsSingle (s : Nat) : Option Nat :=
  if vsLen s = 1 then (vsIter s).head? else none

/-- `!` on `ValueSet` (`!bits & !LAST`): complement within the 9-bit
universe. -/
def vsNot (s : Nat) : Nat := (s &&& 511) ^^^ 511

/-!
### `sudoku/board.rs` and `sudoku/group.rs`

`Board` is the 81-cell external grid.  `GROUPS` (9 rows, then 9 columns,
then 9 blocks, each as an ascending index list) is the constant that
`sudoku/solver.rs` imports; its defining module is not part of the source
snapshot, but `group.rs` pins down the same 27 groups in the same order,
and `LocationSet` iteration is ascending, so both versions agree.
-/

/-- `BoardCell`. -/
inductive BoardCell where
  | empty
  | value (v : Nat)
deriving DecidableEq, Repr

/-- `Board` (81 `BoardCell`s). -/
abbrev Board := List BoardCell

/-- The invariants of the Rust `Board` type: 81 cells whose values are
`CellValue`s, i.e. in 1..9. -/
def Board.WF (b : Board) : Prop :=
  b.length = 81 ∧ ∀ c ∈ b, ∀ v, c = BoardCell.value v → 1 ≤ v ∧ v ≤ 9

/-- Group of row `r` as cell indices. -/
def rowGroup (r : Nat) : List Nat := (List.range 9).map (fun c => r * 9 + c)

/-- Group of column `c` as cell indices. -/
def colGroup (c : Nat) : List Nat := (List.range 9).map (fun r => r * 9 + c)

/-- Group of block `b` as cell indices (row-major inside the block). -/
def blockGroup (b : Nat) : List Nat :=
  (List.range 9).map (fun i => (b / 3 * 3 + i / 3) * 9 + (b % 3 * 3 + i % 3))

/-- `GROUPS`: rows, then columns, then blocks. -/
def GROUPS : List (List Nat) :=
  (List.range 9).map rowGroup ++ (List.range 9).map colGroup ++
    (List.range 9).map blockGroup

/-- `char::to_digit(10)`. -/
def toDigit10 (c : Char) : Option Nat :=
  if '0' ≤ c ∧ c ≤ '9' then some (c.toNat - '0'.toNat) else none

/-- Parse a single character of a board line (`Board::from_line`'s match
arm): the empty character is tested first, then digits `1..9`; `'0'` and
all other characters are errors. -/
def parseCell (emptyChar c : Char) : Except String BoardCell :=
  if c = emptyChar then .ok .empty
  else
    match toDigit10 c with
    | some 0 => .error "0 is not a valid character"
    | some d => .ok (.value d)
    | none => .error "Invalid character"

/-- Parse a list of characters into cells, stopping at the first error. -/
def parseCells (emptyChar : Char) : List Char → Except String (List BoardCell)
  | [] => .ok []
  | c :: rest => do
    let cell ← parseCell emptyChar c
    let cells ← parseCells emptyChar rest
    return cell :: cells

/-- The byte length of a character sequence (`str::len` counts UTF-8
bytes, not characters). -/
def utf8Len (cs : List Char) : Nat := (cs.map Char.utf8Size).sum

/-- `Board::from_line`.  The `81`-check is on bytes; the final
`try_into().unwrap()` into `[BoardCell; 81]` panics when multi-byte
characters make the character count differ, modelled as a panic error. -/
def Board.fromLine (line : List Char) (emptyChar : Char) :
    Except String Board := do
  if utf8Len line ≠ 81 then
    .error "Line must be exactly 81 characters long"
  else
    let cells ← parseCells emptyChar line
    if cells.length = 81 then return cells
    else .error "panic: try_into [BoardCell; 81]"

/-- `BoardCell::to_char`. -/
def BoardCell.toChar (emptyChar : Char) : BoardCell → Char
  | .empty => emptyChar
  | .value v => Char.ofNat ('0'.toNat + v)

/-- `Board::format_line`. -/
def Board.formatLine (b : Board) (emptyChar : Char) : List Char :=
  b.map (BoardCell.toChar emptyChar)

/-- Split on `'\n'` (`"a\nb"` gives `[[a],[b]]`, keeping an empty final
part for a trailing newline). -/
def splitNl : List Char → List (List Char)
  | [] => [[]]
  | c :: rest =>
    if c = '\n' then [] :: splitNl rest
    else
      match splitNl rest with
      | [] => [[c]]
      | part :: parts => (c :: part) :: parts

/-- Strip one trailing `'\r'` (what `str::lines` does per line). -/
def stripCr (cs : List Char) : List Char :=
  match cs.getLast? with
  | some '\r' => cs.dropLast
  | _ => cs

/-- `str::lines`: split on `'\n'`, drop a trailing empty part, strip one
`'\r'` from the end of each line. -/
def linesModel (cs : List Char) : List (List Char) :=
  let parts := splitNl cs
  let parts := if parts.getLast? = some [] then parts.dropLast else parts
  parts.map stripCr

/-- Parse the lines of a grid: each line must be 9 bytes, then its
characters are parsed as cells (`Board::from_grid`'s `flat_map`). -/
def parseGridLines (emptyChar : Char) :
    List (List Char) → Except String (List BoardCell)
  | [] => .ok []
  | line :: rest => do
    if utf8Len line ≠ 9 then
      .error "Line must be exactly 9 characters long"
    else
      let cells ← parseCells emptyChar line
      let more ← parseGridLines emptyChar rest
      return cells ++ more

/-- `Board::from_grid` (90 bytes: 81 cells + 9 newlines). -/
def Board.fromGrid (grid : List Char) (emptyChar : Char) :
    Except String Board := do
  if utf8Len grid ≠ 90 then
    .error "Grid must be exactly 90 characters long"
  else
    let cells ← parseGridLines emptyChar (linesModel grid)
    if cells.length = 81 then return cells
    else .error "panic: try_into [BoardCell; 81]"

/-- The full 9-cell chunks of a list (`chunks_exact(9)`). -/
def chunksExact9Go : Nat → List BoardCell → List (List BoardCell)
  | 0, _ => []
  | fuel + 1, l =>
    if l.length < 9 then []
    else l.take 9 :: chunksExact9Go fuel (l.drop 9)

/-- The full 9-cell chunks of a list (`chunks_exact(9)`). -/
def chunksExact9 (l : List BoardCell) : List (List BoardCell) :=
  chunksExact9Go l.length l

/-- `Board::format_compact_grid`: each row of 9 followed by a newline. -/
def Board.formatCompactGrid (b : Board) (emptyChar : Char) : List Char :=
  (chunksExact9 b).foldr
    (fun row acc => row.map (BoardCell.toChar emptyChar) ++ '\n' :: acc) []

/-!
### `sudoku/solver.rs`
-/

/-- `Cell`: a fixed value or an empty cell with its candidate mask. -/
inductive Cell where
  | empty (mask : Nat)
  | value (v : Nat)
deriving DecidableEq, Repr

/-- `Cell::value`. -/
def Cell.valueOf : Cell → Option Nat
  | .empty _ => none
  | .value v => some v

/-- `Cell::possible_values`. -/
def Cell.possibleValues : Cell → Nat
  | .empty m => m
  | .value v => vsFromValue v

/-- `Cell::is_empty`. -/
def Cell.isEmpty : Cell → Bool
  | .empty _ => true
  | .value _ => false

/-- `SolveState`: the 81 working cells. -/
abbrev SolveState := List Cell

/-- Cell lookup (all accesses are in range for 81-cell states; the
default is never used there). -/
def stGet (st : SolveState) (i : Nat) : Cell :=
  (st.get? i).getD (.empty 0)

/-- `SolveState::from_board`. -/
def SolveState.fromBoard (b : Board) : SolveState :=
  b.map (fun c => match c with
    | .value v => Cell.value v
    | .empty => Cell.empty vsAll)

/-- `Board::from_solve_state`. -/
def Board.fromSolveState (st : SolveState) : Board :=
  st.map (fun c => match c with
    | .value v => BoardCell.value v
    | .empty _ => BoardCell.empty)

/-- `SolveState::free_values`: complement of the union of the fixed
values of a group. -/
def freeValues (st : SolveState) (group : List Nat) : Nat :=
  vsNot (group.foldl
    (fun acc i =>
      match (stGet st i).valueOf with
      | some v => acc ||| vsFromValue v
      | none => acc)
    vsNone)

/-- `SolveState::validate`: no value occurs twice among the fixed cells
of any group. -/
def SolveState.validate (st : SolveState) : Except String Unit :=
  go GROUPS
where
  goGroup (st : SolveState) : List Nat → Nat → Except String Unit
    | [], _ => .ok ()
    | i :: rest, seen =>
      match (stGet st i).valueOf with
      | some v =>
        if vsContains seen v then .error "Duplicate value in group"
        else goGroup st rest (seen ||| vsFromValue v)
      | none => goGroup st rest seen
  go : List (List Nat) → Except String Unit
    | [] => .ok ()
    | g :: rest =>
      match goGroup st g vsNone with
      | .error e => .error e
      | .ok () => go rest

/-- `SolveState::restrict`. -/
def restrict (cell : Cell) (values : Nat) : Except String (Cell × Bool) :=
  match cell with
  | .empty mask =>
    let vs := mask &&& values
    if vs = vsNone then .error "No possible values left for cell."
    else
      match vsSingle vs with
      | some v => .ok (.value v, true)
      | none => .ok (.empty vs, decide (mask ≠ vs))
  | .value v =>
    if vsContains values v then .ok (.value v, false)
    else .error "Cell value is not possible according to value set."

/-- First half of `restrict_cells` for one group: restrict every empty
cell of the group by the group's free values. -/
def restrictGroupCells (fv : Nat) :
    SolveState → Bool → List Nat → Except String (SolveState × Bool)
  | st, changed, [] => .ok (st, changed)
  | st, changed, i :: rest =>
    let cell := stGet st i
    if cell.isEmpty then
      match restrict cell fv with
      | .error e => .error e
      | .ok (c2, ch) => restrictGroupCells fv (st.set i c2) (changed || ch) rest
  else restrictGroupCells fv st changed rest

/-- Second half of `restrict_cells` for one group: for every still-free
value with exactly one possible cell, fix that cell (`exactly_one`).  The
`assert!(cell.value().is_none())` is modelled as a panic error. -/
def assignSingles (group : List Nat) :
    SolveState → Bool → List Nat → Except String (SolveState × Bool)
  | st, changed, [] => .ok (st, changed)
  | st, changed, v :: vrest =>
    match group.filter (fun i => vsContains (stGet st i).possibleValues v) with
    | [i] =>
      if (stGet st i).isEmpty then
        assignSingles group (st.set i (.value v)) true vrest
      else .error "panic: assert(cell.value().is_none())"
    | _ => assignSingles group st changed vrest

/-- `SolveState::restrict_cells`. -/
def restrictCells (st : SolveState) : Except String (SolveState × Bool) :=
  go st false GROUPS
where
  go (st : SolveState) (changed : Bool) :
      List (List Nat) → Except String (SolveState × Bool)
    | [] => .ok (st, changed)
    | g :: rest =>
      match restrictGroupCells (freeValues st g) st changed g with
      | .error e => .error e
      | .ok (st1, ch1) =>
        match assignSingles g st1 ch1 (vsIter (freeValues st1 g)) with
        | .error e => .error e
        | .ok (st2, ch2) => go st2 ch2 rest

/-- The ghost-collection pass of `ghosts`: for every group and value, the
set of cells still admitting the value, kept when its size is 2 or 3; the
`ensure!` that all of them are empty is an error otherwise. -/
def collectGhosts (st : SolveState) :
    List (List Nat) → Except String (List (Nat × List Nat))
  | [] => .ok []
  | g :: rest =>
    match goValues g (vsIter vsAll) with
    | .error e => .error e
    | .ok gs =>
      match collectGhosts st rest with
      | .error e => .error e
      | .ok more => .ok (gs ++ more)
where
  goValues (g : List Nat) : List Nat → Except String (List (Nat × List Nat))
    | [] => .ok []
    | v :: vrest =>
      let locs := g.filter (fun i => vsContains (stGet st i).possibleValues v)
      if locs.length = 2 ∨ locs.length = 3 then
        if locs.all (fun i => (stGet st i).isEmpty) then
          match goValues g vrest with
          | .error e => .error e
          | .ok more => .ok ((v, locs) :: more)
        else .error "Location is not empty."
      else goValues g vrest

/-- The application pass of `ghosts`: for every group containing a
ghost's locations, remove the ghost value from the group's other empty
cells. -/
def applyGhosts (ghosts : List (Nat × List Nat)) :
    SolveState → Bool → List (List Nat) → Except String (SolveState × Bool)
  | st, changed, [] => .ok (st, changed)
  | st, changed, g :: grest =>
    match goGhosts g st changed ghosts with
    | .error e => .error e
    | .ok (st2, ch2) => applyGhosts ghosts st2 ch2 grest
where
  goCells (gv : Nat) : SolveState → Bool → List Nat →
      Except String (SolveState × Bool)
    | st, changed, [] => .ok (st, changed)
    | st, changed, i :: irest =>
      let cell := stGet st i
      if cell.isEmpty then
        match restrict cell (vsNot (vsFromValue gv)) with
        | .error e => .error e
        | .ok (c2, ch) => goCells gv (st.set i c2) (changed || ch) irest
      else goCells gv st changed irest
  goGhosts (g : List Nat) : SolveState → Bool → List (Nat × List Nat) →
      Except String (SolveState × Bool)
    | st, changed, [] => .ok (st, changed)
    | st, changed, (gv, locs) :: grest =>
      if locs.all (fun i => i ∈ g) then
        match goCells gv st changed (g.filter (fun i => i ∉ locs)) with
        | .error e => .error e
        | .ok (st2, ch2) => goGhosts g st2 ch2 grest
      else goGhosts g st changed grest

/-- `SolveState::ghosts`. -/
def ghostsPass (st : SolveState) : Except String (SolveState × Bool) :=
  match collectGhosts st GROUPS with
  | .error e => .error e
  | .ok gs => applyGhosts gs st false GROUPS

/-- The `min_by_key` scan of `guess`: first empty cell with the smallest
candidate count, as `(index, len)`. -/
def bestEmpty : List Cell → Nat → Option (Nat × Nat) → Option (Nat × Nat)
  | [], _, best => best
  | c :: rest, i, best =>
    match c with
    | .empty m =>
      let l := vsLen m
      match best with
      | none => bestEmpty rest (i + 1) (some (i, l))
      | some (bi, bl) =>
        if l < bl then bestEmpty rest (i + 1) (some (i, l))
        else bestEmpty rest (i + 1) (some (bi, bl))
    | .value _ => bestEmpty rest (i + 1) best

/-- `SolveState::guess`: the MRV cell and the smallest of its candidate
values (the `unwrap` on the value iterator is total for non-empty
masks). -/
def guess (st : SolveState) : Option (Nat × Nat) :=
  match bestEmpty st 0 none with
  | none => none
  | some (i, _) =>
    some (i, ((vsIter (stGet st i).possibleValues).head?).getD 0)

/-- `try_solve_guess`: run `restrict_cells` and `ghosts` (short-circuit
`||`) until neither changes the state, counting iterations plus one;
fuel-indexed. -/
def trySolveGuess : Nat → SolveState → Nat →
    Option (Except String (SolveState × Nat))
  | 0, _, _ => none
  | fuel + 1, st, steps =>
    match restrictCells st with
    | .error e => some (.error e)
    | .ok (st1, true) => trySolveGuess fuel st1 (steps + 1)
    | .ok (st1, false) =>
      match ghostsPass st1 with
      | .error e => some (.error e)
      | .ok (st2, true) => trySolveGuess fuel st2 (steps + 1)
      | .ok (st2, false) => some (.ok (st2, steps + 1))

/-- A guess-stack frame: the pre-guess state, the guessed location and
the guessed value. -/
def Frame := SolveState × Nat × Nat

/-- `handle_error`: pop a frame and remove the guessed value from the
guessed cell of the restored state; with an empty stack (or when the
removal itself fails) the error leaves `solve`. -/
def handleError : List Frame → Except String (SolveState × List Frame)
  | [] => .error "unsolvable: stack empty"
  | (prev, gl, gv) :: rest =>
    match restrict (stGet prev gl) (vsNot (vsFromValue gv)) with
    | .error e => .error e
    | .ok (c2, _) => .ok (prev.set gl c2, rest)

/-- The second half of one `solve` loop iteration (after the
`try_solve_guess` match): guess and push, or validate and return, or
unwind.  `Sum.inl` is a return from `solve`; `Sum.inr` continues the loop
with the new state. -/
def afterTry (st : SolveState) (stack : List Frame) (steps guesses : Nat) :
    Except String (Board × Nat × Nat) ⊕ (SolveState × List Frame × Nat × Nat) :=
  match guess st with
  | some (gl, gv) =>
    .inr (st.set gl (.value gv), (st, gl, gv) :: stack, steps, guesses + 1)
  | none =>
    match st.validate with
    | .ok () => .inl (.ok (Board.fromSolveState st, steps, guesses))
    | .error _ =>
      match handleError stack with
      | .error e => .inl (.error e)
      | .ok (st2, stack2) => .inr (st2, stack2, steps, guesses)

/-- `sudoku/solver.rs`: the `while num_steps < 1000` loop of `solve`.
The stack is a list with its top at the head; `stack.first()` of the
source (the bottom of the `Vec`) is therefore `getLast?`. -/
def solveLoop : Nat → SolveState → List Frame → Nat → Nat →
    Option (Except String (Board × Nat × Nat))
  | 0, _, _, _, _ => none
  | fuel + 1, cur, stack, steps, guesses =>
    if steps < 1000 then
      match trySolveGuess (fuel + 1) cur 0 with
      | none => none
      | some (.error _) =>
        match handleError stack with
        | .error e => some (.error e)
        | .ok (st2, stack2) =>
          match afterTry st2 stack2 steps guesses with
          | .inl r => some r
          | .inr (st3, stack3, steps3, guesses3) =>
            solveLoop fuel st3 stack3 steps3 guesses3
      | some (.ok (st1, s)) =>
        match afterTry st1 stack (steps + s) guesses with
        | .inl r => some r
        | .inr (st3, stack3, steps3, guesses3) =>
          solveLoop fuel st3 stack3 steps3 guesses3
    else
      some (.ok
        (Board.fromSolveState ((stack.getLast?.map (fun f => f.1)).getD cur),
          steps, guesses))

/-- `sudoku/solver.rs`: `solve`. -/
def solve (fuel : Nat) (b : Board) :
    Option (Except String (Board × Nat × Nat)) :=
  solveLoop fuel (SolveState.fromBoard b) [] 0 0

end Sudoku

end Puzzles

/-! ## Theorems -/

namespace Puzzles

namespace Camping

/-- The map the camping solver reaches after presolving `contraMap`. -/
def contraPresolved : Map :=
  { tiles :=
      [ [Tile.blocked, Tile.free, Tile.tree, Tile.free],
        [Tile.blocked, Tile.free, Tile.free, Tile.free],
        [Tile.free, Tile.tree, Tile.free, Tile.tree] ],
    rowReq := [1, 1, 0],
    colReq := [0, 2, 0, 1] }

/-- The quiescent map after one `solve_step` on `contraPresolved`. -/
def contraQuiescent : Map :=
  { tiles :=
      [ [Tile.blocked, Tile.free, Tile.tree, Tile.free],
        [Tile.blocked, Tile.free, Tile.blocked, Tile.free],
        [Tile.blocked, Tile.tree, Tile.blocked, Tile.tree] ],
    rowReq := [1, 1, 0],
    colReq := [0, 2, 0, 1] }

/-- Whether a solver result is an error return. -/
def isErrorResult : Option (Except String (Option Map)) → Bool
  | some (.error _) => true
  | _ => false

/-- **C1** (code bug).  The claim says a contradiction found by
propagation after a guess is always recovered by unwinding (or `Ok(None)`
on an exhausted stack) and never reaches `solve`'s caller.  On the input
`contraMap` the code does the opposite: presolve succeeds, one
`solve_step` propagates and quiesces on a valid incomplete map, `solve`
then guesses a tent at (0,1), and the next `solve_step` finds the map
invalid and returns an error which `solve` propagates to its caller via
`?` (the unwind branch after `solve_step` is unreachable because
`solve_step` already returned the error). -/
theorem camping_contradiction_escapes_solve :
    presolve contraMap = .ok contraPresolved ∧
    solveStep contraPresolved = .ok (contraQuiescent, true) ∧
    solveStep contraQuiescent = .ok (contraQuiescent, false) ∧
    contraQuiescent.isComplete = false ∧
    (contraQuiescent.isValid).isOk = true ∧
    guessNext contraQuiescent 0 = some (⟨0, 1⟩, true, 2) ∧
    (solveStep (addTentExpect contraQuiescent ⟨0, 1⟩)).isOk = false ∧
    isErrorResult (solve 50 contraMap) = true := by
  decide

/-- **C9**.  The reference placement operations fail with
`OutOfBounds` exactly on locations outside the map, fail with `NotFree`
exactly on in-bounds non-free tiles, succeed by writing the tile
otherwise, and the two error kinds are distinct values. -/
theorem camping_placement_error_kinds (m : Map) (hwf : m.WF) (l : Loc) :
    (m.refAddTent l = .error (.outOfBounds l) ↔
      ¬(l.row < m.height ∧ l.col < m.width)) ∧
    (∀ t, m.refAddTent l = .error (.notFree l t) →
      (l.row < m.height ∧ l.col < m.width) ∧ m.get l = some t ∧ t ≠ Tile.free) ∧
    (∀ t, m.get l = some t → t ≠ Tile.free →
      m.refAddTent l = .error (.notFree l t)) ∧
    (m.get l = some Tile.free → m.refAddTent l = .ok (m.setTile l Tile.tent)) ∧
    (m.refAddBlocked l = .error (.outOfBounds l) ↔
      ¬(l.row < m.height ∧ l.col < m.width)) ∧
    (∀ t, m.refAddBlocked l = .error (.notFree l t) →
      (l.row < m.height ∧ l.col < m.width) ∧ m.get l = some t ∧ t ≠ Tile.free) ∧
    (∀ t, m.get l = some t → t ≠ Tile.free →
      m.refAddBlocked l = .error (.notFree l t)) ∧
    (m.get l = some Tile.free →
      m.refAddBlocked l = .ok (m.setTile l Tile.blocked)) ∧
    (∀ l1 l2 t, PlacementError.outOfBounds l1 ≠ PlacementError.notFree l2 t) := by
  have hget : (m.get l).isSome = true ↔ (l.row < m.height ∧ l.col < m.width) := by
    unfold Map.get Map.height Map.width
    cases hrow : m.tiles.get? l.row with
    | none =>
      have hlen : m.tiles.length ≤ l.row := List.get?_eq_none.mp hrow
      simp only [Option.none_bind, Option.isSome_none, Bool.false_eq_true,
        false_iff, not_and]
      intro h1
      omega
    | some row =>
      obtain ⟨h1, _⟩ := List.get?_eq_some.mp hrow
      have hmem : row ∈ m.tiles := List.get?_mem hrow
      have hlen : row.length = m.colReq.length := hwf.2 row hmem
      simp only [Option.some_bind]
      constructor
      · intro h
        obtain ⟨t, ht⟩ := Option.isSome_iff_exists.mp h
        obtain ⟨h2, _⟩ := List.get?_eq_some.mp ht
        exact ⟨h1, by omega⟩
      · rintro ⟨_, h2⟩
        have h2b : l.col < row.length := by omega
        rw [List.get?_eq_get h2b]
        rfl
  have hoob : m.get l = none ↔ ¬(l.row < m.height ∧ l.col < m.width) := by
    rw [← hget]
    cases m.get l <;> simp
  cases hg : m.get l with
  | none =>
    have hb : ¬(l.row < m.height ∧ l.col < m.width) := hoob.mp hg
    refine ⟨?_, ?_, ?_, ?_, ?_, ?_, ?_, ?_, ?_⟩
    · simp [Map.refAddTent, hg, hb]
    · intro t h
      simp [Map.refAddTent, hg] at h
    · intro t ht
      exact Option.noConfusion ht
    · intro ht
      exact Option.noConfusion ht
    · simp [Map.refAddBlocked, hg, hb]
    · intro t h
      simp [Map.refAddBlocked, hg] at h
    · intro t ht
      exact Option.noConfusion ht
    · intro ht
      exact Option.noConfusion ht
    · intro l1 l2 t h
      cases h
  | some t0 =>
    have hb : l.row < m.height ∧ l.col < m.width :=
      hget.mp (by rw [hg]; rfl)
    by_cases hf0 : t0 = Tile.free
    · subst hf0
      refine ⟨?_, ?_, ?_, ?_, ?_, ?_, ?_, ?_, ?_⟩
      · simp [Map.refAddTent, hg, hb]
      · intro t h
        simp [Map.refAddTent, hg] at h
      · intro t ht hf
        injection ht with h2
        exact absurd h2.symm hf
      · intro _
        simp [Map.refAddTent, hg]
      · simp [Map.refAddBlocked, hg, hb]
      · intro t h
        simp [Map.refAddBlocked, hg] at h
      · intro t ht hf
        injection ht with h2
        exact absurd h2.symm hf
      · intro _
        simp [Map.refAddBlocked, hg]
      · intro l1 l2 t h
        cases h
    · refine ⟨?_, ?_, ?_, ?_, ?_, ?_, ?_, ?_, ?_⟩
      · simp [Map.refAddTent, hg, hf0, hb]
      · intro t h
        simp only [Map.refAddTent, hg, ne_eq, hf0, not_false_eq_true,
          if_pos] at h
        injection h with h2
        injection h2 with h3 h4
        subst h4
        exact ⟨hb, rfl, hf0⟩
      · intro t ht hf
        injection ht with h2
        subst h2
        simp [Map.refAddTent, hg, hf]
      · intro ht
        injection ht with h2
        exact absurd h2 hf0
      · simp [Map.refAddBlocked, hg, hf0, hb]
      · intro t h
        simp only [Map.refAddBlocked, hg, ne_eq, hf0, not_false_eq_true,
          if_pos] at h
        injection h with h2
        injection h2 with h3 h4
        subst h4
        exact ⟨hb, rfl, hf0⟩
      · intro t ht hf
        injection ht with h2
        subst h2
        simp [Map.refAddBlocked, hg, hf]
      · intro ht
        injection ht with h2
        exact absurd h2 hf0
      · intro l1 l2 t h
        cases h

/-- Witness for the placement-error theorem at a concrete map and
location. -/
theorem camping_placement_error_kinds_witness :
    contraMap.refAddTent ⟨0, 0⟩ = .ok (contraMap.setTile ⟨0, 0⟩ Tile.tent) :=
  (camping_placement_error_kinds contraMap (by decide) ⟨0, 0⟩).2.2.2.1 (by decide)

/-- **C10**.  Placement is atomic on failure: whenever `ref_add_tent` or
`ref_add_blocked` returns a `PlacementError` of either kind, the map
(every tile and both requirement vectors) is exactly as before the
call. -/
theorem camping_placement_atomic (m : Map) (l : Loc) :
    (∀ e, (m.refAddTentMut l).2 = .error e → (m.refAddTentMut l).1 = m) ∧
    (∀ e, (m.refAddBlockedMut l).2 = .error e → (m.refAddBlockedMut l).1 = m) := by
  constructor
  · intro e h
    unfold Map.refAddTentMut at h ⊢
    cases hr : m.refAddTent l with
    | ok m2 => rw [hr] at h; simp at h
    | error e2 => rfl
  · intro e h
    unfold Map.refAddBlockedMut at h ⊢
    cases hr : m.refAddBlocked l with
    | ok m2 => rw [hr] at h; simp at h
    | error e2 => rfl

/-- Witness for the atomicity theorem: an out-of-bounds tent placement on
the concrete map leaves it unchanged. -/
theorem camping_placement_atomic_witness :
    (contraMap.refAddTentMut ⟨9, 9⟩).1 = contraMap :=
  (camping_placement_atomic contraMap ⟨9, 9⟩).1
    (PlacementError.outOfBounds ⟨9, 9⟩) (by decide)

end Camping

namespace Sudoku

/-- **C4 counterexample**.  The claim states `restrict` returns `changed
= true` iff the cell's effective possibility set strictly shrank.  On the
cell `Empty({1})` with value set `ALL` the intersection `{1} ∩ ALL = {1}`
does not shrink, yet the code collapses the cell to `Value(1)` and
returns `changed = true`. -/
theorem sudoku_restrict_changed_claim_false :
    restrict (.empty (vsFromValue 1)) vsAll = .ok (.value 1, true) ∧
    vsFromValue 1 &&& vsAll = vsFromValue 1 := by
  decide

/-- **C4** (amended).  The full `restrict` contract: it errs exactly when
an empty cell's mask meets the value set in the empty set or a fixed
value is outside the value set; on success `changed` holds iff the mask
strictly shrank **or the (possibly unchanged) intersection became a
singleton and the cell collapsed to `Value`** (the latter disjunct is
what the claim missed); a singleton intersection is always stored as
`Value` of its unique element; a fixed value that stays reports `changed
= false`. -/
theorem sudoku_restrict_contract (cell : Cell) (S : Nat) (hS : S ≤ 511)
    (hempty : ∀ m, cell = .empty m → m ≤ 511)
    (hvalue : ∀ v, cell = .value v → 1 ≤ v ∧ v ≤ 9) :
    ((restrict cell S).isOk = false ↔
      (∃ m, cell = .empty m ∧ m &&& S = 0) ∨
      (∃ v, cell = .value v ∧ vsContains S v = false)) ∧
    (∀ c2 ch m, cell = .empty m → restrict cell S = .ok (c2, ch) →
      (ch = true ↔ (m &&& S ≠ m ∨ vsLen (m &&& S) = 1))) ∧
    (∀ c2 ch m, cell = .empty m → restrict cell S = .ok (c2, ch) →
      vsLen (m &&& S) = 1 → ∃ v, c2 = .value v ∧ vsIter (m &&& S) = [v]) ∧
    (∀ c2 ch v, cell = .value v → restrict cell S = .ok (c2, ch) →
      c2 = .value v ∧ ch = false) := by
  refine ⟨?_, ?_, ?_, ?_⟩
  · cases cell with
    | empty m =>
      unfold restrict
      constructor
      · intro h
        by_cases hz : m &&& S = vsNone
        · exact Or.inl ⟨m, rfl, hz⟩
        · exfalso
          simp only [hz, if_neg, if_false] at h
          cases hs : vsSingle (m &&& S) with
          | some v => rw [hs] at h; simp [Except.isOk, Except.toBool] at h
          | none => rw [hs] at h; simp [Except.isOk, Except.toBool] at h
      · rintro (⟨m2, hm, hz⟩ | ⟨v, hv, _⟩)
        · cases hm
          simp [hz, vsNone, Except.isOk, Except.toBool]
        · cases hv
    | value v =>
      unfold restrict
      constructor
      · intro h
        refine Or.inr ⟨v, rfl, ?_⟩
        by_cases hc : vsContains S v = true
        · simp [hc, Except.isOk, Except.toBool] at h
        · simpa using hc
      · rintro (⟨m2, hm, _⟩ | ⟨v2, hv, hc⟩)
        · cases hm
        · cases hv
          simp [hc, Except.isOk, Except.toBool]
  · intro c2 ch m hm h
    cases hm
    unfold restrict at h
    by_cases hz : m &&& S = vsNone
    · simp [hz] at h
    · simp only [hz, if_neg, if_false] at h
      cases hs : vsSingle (m &&& S) with
      | some v =>
        rw [hs] at h
        cases h
        unfold vsSingle at hs
        by_cases hl : vsLen (m &&& S) = 1
        · simp [hl]
        · simp [hl] at hs
      | none =>
        rw [hs] at h
        cases h
        unfold vsSingle at hs
        by_cases hl : vsLen (m &&& S) = 1
        · simp only [hl, if_pos] at hs
          have : (vsIter (m &&& S)).length = 1 := hl
          cases hit : vsIter (m &&& S) with
          | nil => rw [hit] at this; simp at this
          | cons a rest =>
            rw [hit] at hs
            simp at hs
        · constructor
          · intro hne
            rw [decide_eq_true_eq] at hne
            exact Or.inl (Ne.symm hne)
          · rintro (hne | h1)
            · rw [decide_eq_true_eq]
              exact Ne.symm hne
            · exact absurd h1 hl
  · intro c2 ch m hm h hl
    cases hm
    unfold restrict at h
    by_cases hz : m &&& S = vsNone
    · simp [hz] at h
    · simp only [hz, if_neg, if_false] at h
      cases hs : vsSingle (m &&& S) with
      | some v =>
        rw [hs] at h
        cases h
        unfold vsSingle at hs
        simp only [hl, if_pos] at hs
        refine ⟨v, rfl, ?_⟩
        have : (vsIter (m &&& S)).length = 1 := hl
        cases hit : vsIter (m &&& S) with
        | nil => rw [hit] at this; simp at this
        | cons a rest =>
          rw [hit] at this
          simp at this
          rw [hit] at hs
          simp at hs
          rw [this, hs]
      | none =>
        unfold vsSingle at hs
        simp [hl] at hs
        have hlen : (vsIter (m &&& S)).length = 1 := hl
        rw [hs] at hlen
        simp at hlen
  · intro c2 ch v hv h
    cases hv
    unfold restrict at h
    by_cases hc : vsContains S v = true
    · simp only [hc, if_pos] at h
      cases h
      exact ⟨rfl, rfl⟩
    · simp only [Bool.not_eq_true] at hc
      simp [hc] at h

/-- Witness for the `restrict` contract at the concrete cell
`Empty({1,2})` and value set `{2..9}`. -/
theorem sudoku_restrict_contract_witness :
    (restrict (Cell.empty 3) 510).isOk = false ↔
      (∃ m, Cell.empty 3 = .empty m ∧ m &&& 510 = 0) ∨
      (∃ v, Cell.empty 3 = .value v ∧ vsContains 510 v = false) :=
  (sudoku_restrict_contract (.empty 3) 510 (by norm_num)
    (fun m hm => by cases hm; norm_num) (fun v hv => by cases hv)).1

/-- **C5**.  When the loop guard `num_steps < 1000` fails, `solve`
returns `Ok` with the board projected from the bottom frame of the guess
stack (the earliest saved state), falling back to the current state only
on an empty stack, together with the accumulated counters. -/
theorem sudoku_budget_exit (fuel : Nat) (cur : SolveState)
    (stack : List Frame) (steps guesses : Nat) (h : 1000 ≤ steps) :
    solveLoop (fuel + 1) cur stack steps guesses =
      some (.ok (Board.fromSolveState
        ((stack.getLast?.map (fun f => f.1)).getD cur), steps, guesses)) ∧
    (stack = [] → (stack.getLast?.map (fun f => f.1)).getD cur = cur) ∧
    (∀ front last, stack = front ++ [last] →
      (stack.getLast?.map (fun f => f.1)).getD cur = last.1) := by
  refine ⟨?_, ?_, ?_⟩
  · unfold solveLoop
    rw [if_neg (by omega)]
  · intro hs
    subst hs
    rfl
  · intro front last hs
    subst hs
    rw [List.getLast?_concat]
    rfl

/-- Witness for the budget-exit theorem at fuel 1, state `[]`, an empty
stack and `steps = 1000`. -/
theorem sudoku_budget_exit_witness :
    solveLoop 1 [] [] 1000 7 =
      some (.ok (Board.fromSolveState
        ((([] : List Frame).getLast?.map (fun f => f.1)).getD []),
          1000, 7)) :=
  (sudoku_budget_exit 0 [] [] 1000 7 (by omega)).1

/-- `bestEmpty` returns `none` exactly when it started with no best and
the scanned list has no `Empty` cell. -/
theorem bestEmpty_none (l : List Cell) : ∀ (i : Nat)
    (best : Option (Nat × Nat)),
    (bestEmpty l i best = none ↔
      best = none ∧ ∀ c ∈ l, c.isEmpty = false) := by
  induction l with
  | nil =>
    intro i best
    simp [bestEmpty]
  | cons c rest ih =>
    intro i best
    cases c with
    | empty m =>
      cases best with
      | none =>
        have hstep : bestEmpty (Cell.empty m :: rest) i none =
            bestEmpty rest (i + 1) (some (i, vsLen m)) := rfl
        rw [hstep, ih]
        simp [Cell.isEmpty]
      | some b0 =>
        obtain ⟨b0i, b0l⟩ := b0
        have hstep : bestEmpty (Cell.empty m :: rest) i (some (b0i, b0l)) =
            if vsLen m < b0l then bestEmpty rest (i + 1) (some (i, vsLen m))
            else bestEmpty rest (i + 1) (some (b0i, b0l)) := rfl
        rw [hstep]
        by_cases hlt : vsLen m < b0l
        · rw [if_pos hlt, ih]
          simp
        · rw [if_neg hlt, ih]
          simp
    | value v =>
      have hstep : bestEmpty (Cell.value v :: rest) i best =
          bestEmpty rest (i + 1) best := rfl
      rw [hstep, ih]
      simp [Cell.isEmpty]

/-- The first-minimum invariant of the `min_by_key` scan: the result is
the initial best or an `Empty` cell of the list; it dominates every
`Empty` cell; ties go to the earliest index; and it never reports a worse
key than the initial best. -/
theorem bestEmpty_spec (l : List Cell) : ∀ (i : Nat)
    (best : Option (Nat × Nat)) (bi bl : Nat),
    (∀ b0i b0l, best = some (b0i, b0l) → b0i < i) →
    bestEmpty l i best = some (bi, bl) →
    (best = some (bi, bl) ∨
      ∃ k m, l.get? k = some (.empty m) ∧ bi = i + k ∧ bl = vsLen m) ∧
    (∀ k m, l.get? k = some (.empty m) → bl ≤ vsLen m) ∧
    (∀ k m, l.get? k = some (.empty m) → vsLen m = bl → bi ≤ i + k) ∧
    (∀ b0i b0l, best = some (b0i, b0l) →
      bl ≤ b0l ∧ (bl = b0l → bi = b0i)) := by
  induction l with
  | nil =>
    intro i best bi bl hbest hres
    have hres' : best = some (bi, bl) := hres
    subst hres'
    refine ⟨Or.inl rfl, ?_, ?_, ?_⟩
    · intro k m hk
      simp at hk
    · intro k m hk
      simp at hk
    · intro b0i b0l hb
      injection hb with hb2
      injection hb2 with h1 h2
      subst h1
      subst h2
      exact ⟨le_refl _, fun _ => rfl⟩
  | cons c rest ih =>
    intro i best bi bl hbest hres
    cases c with
    | value v =>
      have hstep : bestEmpty (Cell.value v :: rest) i best =
          bestEmpty rest (i + 1) best := rfl
      rw [hstep] at hres
      obtain ⟨h1, h2, h3, h4⟩ := ih (i + 1) best bi bl
        (fun x y hb => Nat.lt_succ_of_lt (hbest x y hb)) hres
      refine ⟨?_, ?_, ?_, h4⟩
      · rcases h1 with h | ⟨k, m, hk, hbi, hbl⟩
        · exact Or.inl h
        · exact Or.inr ⟨k + 1, m, by rw [List.get?_cons_succ]; exact hk,
            by omega, hbl⟩
      · intro k m hk
        cases k with
        | zero =>
          rw [List.get?_cons_zero] at hk
          simp at hk
        | succ k =>
          rw [List.get?_cons_succ] at hk
          exact h2 k m hk
      · intro k m hk hlen
        cases k with
        | zero =>
          rw [List.get?_cons_zero] at hk
          simp at hk
        | succ k =>
          rw [List.get?_cons_succ] at hk
          have := h3 k m hk hlen
          omega
    | empty m =>
      cases best with
      | none =>
        have hstep : bestEmpty (Cell.empty m :: rest) i none =
            bestEmpty rest (i + 1) (some (i, vsLen m)) := rfl
        rw [hstep] at hres
        obtain ⟨h1, h2, h3, h4⟩ := ih (i + 1) (some (i, vsLen m)) bi bl
          (fun x y hb => by injection hb with h; injection h with ha hb2; omega)
          hres
        have h4' := h4 i (vsLen m) rfl
        refine ⟨?_, ?_, ?_, ?_⟩
        · rcases h1 with h | ⟨k, m2, hk, hbi, hbl⟩
          · injection h with h'
            injection h' with ha hb2
            exact Or.inr ⟨0, m, rfl, by omega, hb2.symm⟩
          · exact Or.inr ⟨k + 1, m2, by rw [List.get?_cons_succ]; exact hk,
              by omega, hbl⟩
        · intro k m2 hk
          cases k with
          | zero =>
            rw [List.get?_cons_zero] at hk
            injection hk with h'
            injection h' with hm2
            subst hm2
            exact h4'.1
          | succ k =>
            rw [List.get?_cons_succ] at hk
            exact h2 k m2 hk
        · intro k m2 hk hlen
          cases k with
          | zero =>
            rw [List.get?_cons_zero] at hk
            injection hk with h'
            injection h' with hm2
            subst hm2
            have := h4'.2 hlen.symm
            omega
          | succ k =>
            rw [List.get?_cons_succ] at hk
            have := h3 k m2 hk hlen
            omega
        · intro x y hb
          exact Option.noConfusion hb
      | some b0 =>
        obtain ⟨b0i, b0l⟩ := b0
        have hstep : bestEmpty (Cell.empty m :: rest) i (some (b0i, b0l)) =
            if vsLen m < b0l then bestEmpty rest (i + 1) (some (i, vsLen m))
            else bestEmpty rest (i + 1) (some (b0i, b0l)) := rfl
        rw [hstep] at hres
        by_cases hlt : vsLen m < b0l
        · rw [if_pos hlt] at hres
          obtain ⟨h1, h2, h3, h4⟩ := ih (i + 1) (some (i, vsLen m)) bi bl
            (fun x y hb => by
              injection hb with h; injection h with ha hb2; omega)
            hres
          have h4' := h4 i (vsLen m) rfl
          refine ⟨?_, ?_, ?_, ?_⟩
          · rcases h1 with h | ⟨k, m2, hk, hbi, hbl⟩
            · injection h with h'
              injection h' with ha hb2
              exact Or.inr ⟨0, m, rfl, by omega, hb2.symm⟩
            · exact Or.inr ⟨k + 1, m2, by rw [List.get?_cons_succ]; exact hk,
                by omega, hbl⟩
          · intro k m2 hk
            cases k with
            | zero =>
              rw [List.get?_cons_zero] at hk
              injection hk with h'
              injection h' with hm2
              subst hm2
              exact h4'.1
            | succ k =>
              rw [List.get?_cons_succ] at hk
              exact h2 k m2 hk
          · intro k m2 hk hlen
            cases k with
            | zero =>
              rw [List.get?_cons_zero] at hk
              injection hk with h'
              injection h' with hm2
              subst hm2
              have := h4'.2 hlen.symm
              omega
            | succ k =>
              rw [List.get?_cons_succ] at hk
              have := h3 k m2 hk hlen
              omega
          · intro x y hb
            injection hb with h'
            injection h' with ha hb2
            subst ha
            subst hb2
            constructor
            · have := h4'.1
              omega
            · intro he
              exfalso
              have := h4'.1
              omega
        · rw [if_neg hlt] at hres
          obtain ⟨h1, h2, h3, h4⟩ := ih (i + 1) (some (b0i, b0l)) bi bl
            (fun x y hb => by
              injection hb with h
              injection h with ha hb2
              have := hbest b0i b0l rfl
              omega)
            hres
          have h4' := h4 b0i b0l rfl
          have hb0 : b0i < i := hbest b0i b0l rfl
          refine ⟨?_, ?_, ?_, ?_⟩
          · rcases h1 with h | ⟨k, m2, hk, hbi, hbl⟩
            · exact Or.inl h
            · exact Or.inr ⟨k + 1, m2, by rw [List.get?_cons_succ]; exact hk,
                by omega, hbl⟩
          · intro k m2 hk
            cases k with
            | zero =>
              rw [List.get?_cons_zero] at hk
              injection hk with h'
              injection h' with hm2
              subst hm2
              have := h4'.1
              omega
            | succ k =>
              rw [List.get?_cons_succ] at hk
              exact h2 k m2 hk
          · intro k m2 hk hlen
            cases k with
            | zero =>
              rw [List.get?_cons_zero] at hk
              injection hk with h'
              injection h' with hm2
              subst hm2
              have ha := h4'.1
              have hc := h4'.2 (by omega)
              omega
            | succ k =>
              rw [List.get?_cons_succ] at hk
              have := h3 k m2 hk hlen
              omega
          · intro x y hb
            injection hb with h'
            injection h' with ha hb2
            subst ha
            subst hb2
            exact h4'

/-- A nonzero 9-bit mask has a nonempty ascending value list. -/
theorem vsIter_ne_nil (m : Nat) (h : m &&& 511 ≠ 0) : vsIter m ≠ [] := by
  intro hnil
  apply h
  unfold vsIter at hnil
  rw [List.map_eq_nil_iff] at hnil
  have hall : ∀ i, i < 9 → m.testBit i = false := by
    intro i hi
    by_contra hb
    have hmem : i ∈ (List.range 9).filter (fun i => m.testBit i) := by
      rw [List.mem_filter]
      exact ⟨List.mem_range.mpr hi, by simpa using hb⟩
    rw [hnil] at hmem
    simp at hmem
  apply Nat.eq_of_testBit_eq
  intro i
  rw [Nat.testBit_and, Nat.zero_testBit]
  have h511 : (511 : Nat) = 2 ^ 9 - 1 := by norm_num
  rw [h511, Nat.testBit_two_pow_sub_one]
  by_cases hi : i < 9
  · simp [hall i hi]
  · simp [hi]

/-- The ascending value list of a mask is strictly sorted. -/
theorem vsIter_sorted (m : Nat) : (vsIter m).Pairwise (· < ·) := by
  unfold vsIter
  rw [List.pairwise_map]
  have hp : ((List.range 9).filter (fun i => m.testBit i)).Pairwise (· < ·) :=
    List.Pairwise.sublist (List.filter_sublist _) (List.pairwise_lt_range 9)
  exact hp.imp (fun h => by omega)

/-- The head of the ascending value list is its minimum. -/
theorem vsIter_head_min (m w : Nat) (hw : w ∈ vsIter m) :
    ((vsIter m).head?).getD 0 ≤ w := by
  cases hit : vsIter m with
  | nil =>
    rw [hit] at hw
    cases hw
  | cons a restl =>
    have hp := vsIter_sorted m
    rw [hit] at hw hp
    rcases List.mem_cons.mp hw with h | h
    · subst h
      simp
    · have := (List.pairwise_cons.mp hp).1 w h
      simp
      omega

/-- **C6**.  `guess` returns `None` iff no `Empty` cell remains;
otherwise it picks the row-major-first `Empty` cell of minimal candidate
count, paired with the smallest member of that cell's candidate set. -/
theorem sudoku_guess_spec (st : SolveState) :
    (guess st = none ↔ ∀ c ∈ st, c.isEmpty = false) ∧
    (∀ gl gv, guess st = some (gl, gv) →
      ∃ m, st.get? gl = some (Cell.empty m) ∧
        (∀ j m2, st.get? j = some (Cell.empty m2) →
          vsLen m ≤ vsLen m2 ∧ (vsLen m2 = vsLen m → gl ≤ j)) ∧
        (m &&& 511 ≠ 0 →
          (vsIter m).head? = some gv ∧ ∀ w ∈ vsIter m, gv ≤ w)) := by
  constructor
  · cases hbe : bestEmpty st 0 none with
    | none =>
      constructor
      · intro _
        exact ((bestEmpty_none st 0 none).mp hbe).2
      · intro _
        unfold guess
        rw [hbe]
    | some p =>
      obtain ⟨bi, bl⟩ := p
      have hg : guess st =
          some (bi, ((vsIter (stGet st bi).possibleValues).head?).getD 0) := by
        unfold guess
        rw [hbe]
      rw [hg]
      constructor
      · intro h
        exact Option.noConfusion h
      · intro hall
        exfalso
        obtain ⟨h1, _, _, _⟩ := bestEmpty_spec st 0 none bi bl
          (fun _ _ hb => Option.noConfusion hb) hbe
        rcases h1 with h | ⟨k, m, hk, _, _⟩
        · exact Option.noConfusion h
        · have hmem : Cell.empty m ∈ st := List.get?_mem hk
          have := hall _ hmem
          simp [Cell.isEmpty] at this
  · intro gl gv h
    cases hbe : bestEmpty st 0 none with
    | none =>
      have hg : guess st = none := by
        unfold guess
        rw [hbe]
      rw [hg] at h
      exact Option.noConfusion h
    | some p =>
      obtain ⟨bi, bl⟩ := p
      have hg : guess st =
          some (bi, ((vsIter (stGet st bi).possibleValues).head?).getD 0) := by
        unfold guess
        rw [hbe]
      rw [hg] at h
      injection h with h'
      injection h' with hgl hgv
      subst hgl
      obtain ⟨h1, h2, h3, _⟩ := bestEmpty_spec st 0 none bi bl
        (fun _ _ hb => Option.noConfusion hb) hbe
      rcases h1 with hcontra | ⟨k, m, hk, hbi, hbl⟩
      · exact Option.noConfusion hcontra
      · have hkbi : k = bi := by omega
        subst hkbi
        refine ⟨m, hk, ?_, ?_⟩
        · intro j m2 hj
          refine ⟨?_, ?_⟩
          · have := h2 j m2 hj
            omega
          · intro he
            have := h3 j m2 hj (by omega)
            omega
        · intro hm
          have hne := vsIter_ne_nil m hm
          have hstm : stGet st k = Cell.empty m := by
            unfold stGet
            rw [hk]
            rfl
          rw [hstm] at hgv
          cases hit : vsIter m with
          | nil => exact absurd hit hne
          | cons a restl =>
            have hgv' : gv = a := by
              rw [← hgv]
              show ((vsIter m).head?).getD 0 = a
              rw [hit]
              rfl
            subst hgv'
            refine ⟨rfl, ?_⟩
            intro w hw
            rw [← hit] at hw
            have := vsIter_head_min m w hw
            rw [hit] at this
            simpa using this

/-- Witness for the guess theorem: on a concrete three-cell state the
first minimal `Empty` cell is index 0 with smallest candidate 1. -/
theorem sudoku_guess_spec_witness :
    ∃ m, [Cell.empty 3, Cell.value 5, Cell.empty 448].get? 0 =
        some (Cell.empty m) ∧
      (∀ j m2, [Cell.empty 3, Cell.value 5, Cell.empty 448].get? j =
          some (Cell.empty m2) →
        vsLen m ≤ vsLen m2 ∧ (vsLen m2 = vsLen m → 0 ≤ j)) ∧
      (m &&& 511 ≠ 0 →
        (vsIter m).head? = some 1 ∧ ∀ w ∈ vsIter m, 1 ≤ w) :=
  (sudoku_guess_spec [Cell.empty 3, Cell.value 5, Cell.empty 448]).2 0 1
    (by decide)

end Sudoku

namespace Camping

/-- `List.modify` at the modified index. -/
theorem get?_modify_self {α : Type} (l : List α) (f : α → α) (n : Nat) :
    (l.modify f n).get? n = (l.get? n).map f := by
  rw [List.get?_eq_getElem?, List.getElem?_modify, List.get?_eq_getElem?]
  simp

/-- `List.any` respects pointwise-equal predicates. -/
theorem any_congr_on {α : Type} (L : List α) (p q : α → Bool)
    (h : ∀ a ∈ L, p a = q a) : L.any p = L.any q := by
  induction L with
  | nil => rfl
  | cons a rest ih =>
    simp only [List.any_cons]
    rw [h a (by simp), ih (fun b hb => h b (by simp [hb]))]

/-- `setTile` keeps the row requirements. -/
theorem setTile_rowReq (m : Map) (l : Loc) (t : Tile) :
    (m.setTile l t).rowReq = m.rowReq := rfl

/-- `setTile` keeps the column requirements. -/
theorem setTile_colReq (m : Map) (l : Loc) (t : Tile) :
    (m.setTile l t).colReq = m.colReq := rfl

/-- `setTile` keeps the height. -/
theorem setTile_height (m : Map) (l : Loc) (t : Tile) :
    (m.setTile l t).height = m.height := by
  unfold Map.setTile Map.height
  simp [List.length_modify]

/-- `setTile` keeps the dimensions. -/
theorem setTile_dim (m : Map) (l : Loc) (t : Tile) :
    (m.setTile l t).dim = m.dim := by
  unfold Map.dim
  rw [setTile_height]
  rfl

/-- `setTile` leaves every other location unchanged. -/
theorem setTile_get_ne (m : Map) (l l' : Loc) (t : Tile) (h : l' ≠ l) :
    (m.setTile l t).get l' = m.get l' := by
  unfold Map.setTile Map.get
  by_cases hr : l'.row = l.row
  · have hc : l'.col ≠ l.col := by
      intro hc
      apply h
      cases l
      cases l'
      simp_all
    rw [hr, get?_modify_self]
    cases hrow : m.tiles.get? l.row with
    | none => rfl
    | some row =>
      exact List.get?_set_ne t row (Ne.symm hc)
  · rw [List.get?_modifyNth_ne _ _ (Ne.symm hr)]

/-- `setTile` writes the tile at an in-bounds location. -/
theorem setTile_get_self (m : Map) (l : Loc) (t : Tile)
    (h : (m.get l).isSome = true) : (m.setTile l t).get l = some t := by
  unfold Map.setTile Map.get
  unfold Map.get at h
  cases hrow : m.tiles.get? l.row with
  | none =>
    rw [hrow] at h
    simp at h
  | some row =>
    rw [hrow] at h
    simp only [Option.some_bind] at h
    have hc : l.col < row.length := by
      cases hcol : row.get? l.col with
      | none =>
        rw [hcol] at h
        simp at h
      | some t0 => exact (List.get?_eq_some.mp hcol).1
    rw [get?_modify_self, hrow]
    exact List.get?_set_eq_of_lt t hc

/-- A true presolve condition pins the cell to `Free`. -/
theorem presolveCond_free (acc : Map) (l : Loc)
    (h : presolveCond acc l = true) : acc.get l = some Tile.free := by
  unfold presolveCond at h
  rw [Bool.and_eq_true] at h
  have h1 := h.1
  rwa [beq_iff_eq] at h1

/-- One unfolding of the presolve scan. -/
theorem presolveScan_cons (acc : Map) (l0 : Loc) (rest : List Loc) :
    presolveScan acc (l0 :: rest) =
      presolveScan (if presolveCond acc l0 then
          match acc.refAddBlocked l0 with
          | .ok nxt => nxt
          | .error _ => acc
        else acc) rest := rfl

/-- The scan step with a true condition blocks the cell. -/
theorem presolveScan_cons_pos (acc : Map) (l0 : Loc) (rest : List Loc)
    (h : presolveCond acc l0 = true) :
    presolveScan acc (l0 :: rest) =
      presolveScan (acc.setTile l0 Tile.blocked) rest := by
  rw [presolveScan_cons, if_pos h]
  have hadd : acc.refAddBlocked l0 = .ok (acc.setTile l0 Tile.blocked) := by
    unfold Map.refAddBlocked
    rw [presolveCond_free acc l0 h]
    simp
  rw [hadd]

/-- The scan step with a false condition keeps the map. -/
theorem presolveScan_cons_neg (acc : Map) (l0 : Loc) (rest : List Loc)
    (h : presolveCond acc l0 = false) :
    presolveScan acc (l0 :: rest) = presolveScan acc rest := by
  rw [presolveScan_cons, if_neg (by simp [h])]

/-- The presolve scan is monotone: requirements, height and every tile
are preserved except for `Free` cells that become `Blocked`. -/
theorem presolveScan_mono (locs : List Loc) : ∀ (acc : Map),
    (presolveScan acc locs).rowReq = acc.rowReq ∧
    (presolveScan acc locs).colReq = acc.colReq ∧
    (presolveScan acc locs).height = acc.height ∧
    ∀ l, (presolveScan acc locs).get l = acc.get l ∨
      (acc.get l = some Tile.free ∧
        (presolveScan acc locs).get l = some Tile.blocked) := by
  induction locs with
  | nil => exact fun acc => ⟨rfl, rfl, rfl, fun l => Or.inl rfl⟩
  | cons l0 rest ih =>
    intro acc
    by_cases hcond : presolveCond acc l0 = true
    · have hget := presolveCond_free acc l0 hcond
      rw [presolveScan_cons_pos acc l0 rest hcond]
      obtain ⟨h1, h2, h3, h4⟩ := ih (acc.setTile l0 Tile.blocked)
      refine ⟨by rw [h1, setTile_rowReq], by rw [h2, setTile_colReq],
        by rw [h3, setTile_height], ?_⟩
      intro l
      rcases h4 l with h | ⟨hf, hb⟩
      · by_cases hl : l = l0
        · subst hl
          right
          refine ⟨hget, ?_⟩
          rw [h, setTile_get_self _ _ _ (by rw [hget]; rfl)]
        · left
          rw [h, setTile_get_ne _ _ _ _ hl]
      · by_cases hl : l = l0
        · subst hl
          rw [setTile_get_self _ _ _ (by rw [hget]; rfl)] at hf
          simp at hf
        · right
          rw [setTile_get_ne _ _ _ _ hl] at hf
          exact ⟨hf, hb⟩
    · rw [Bool.not_eq_true] at hcond
      rw [presolveScan_cons_neg acc l0 rest hcond]
      exact ih acc

/-- The presolve condition only inspects the cell itself and the `Tent` /
`Tree` population of its surroundings, all invariant under the
`Free → Blocked` monotone order. -/
theorem presolveCond_congr (ma mb : Map) (hdim : mb.dim = ma.dim)
    (hmono : ∀ l2, mb.get l2 = ma.get l2 ∨
      (ma.get l2 = some Tile.free ∧ mb.get l2 = some Tile.blocked))
    (l : Loc) (hget : mb.get l = ma.get l) :
    presolveCond mb l = presolveCond ma l := by
  have htile : ∀ (l2 : Loc) (t0 : Tile), t0 ≠ Tile.free → t0 ≠ Tile.blocked →
      (((mb.get l2).getD Tile.free) == t0) =
        (((ma.get l2).getD Tile.free) == t0) := by
    intro l2 t0 h1 h2
    rcases hmono l2 with h | ⟨hf, hb⟩
    · rw [h]
    · rw [hf, hb]
      cases t0 with
      | tree => rfl
      | tent => rfl
      | free => exact absurd rfl h1
      | blocked => exact absurd rfl h2
  have hmap : ∀ (L : List Loc) (t0 : Tile), t0 ≠ Tile.free →
      t0 ≠ Tile.blocked →
      ((L.map (fun l2 => (mb.get l2).getD Tile.free)).any
          (fun t => t == t0)) =
        ((L.map (fun l2 => (ma.get l2).getD Tile.free)).any
          (fun t => t == t0)) := by
    intro L t0 h1 h2
    induction L with
    | nil => rfl
    | cons a rest ih =>
      simp only [List.map_cons, List.any_cons]
      rw [htile a t0 h1 h2, ih]
  unfold presolveCond Map.neighborTiles Map.adjacentTiles
  rw [hget, hdim,
    hmap (List.filterMap id (l.neighbors ma.dim)) Tile.tent
      (by decide) (by decide),
    hmap (List.filterMap id (l.adjacents ma.dim)) Tile.tree
      (by decide) (by decide)]

/-- A scan over locations whose conditions all fail is the identity. -/
theorem presolveScan_id (locs : List Loc) : ∀ (acc : Map),
    (∀ l ∈ locs, presolveCond acc l = false) →
    presolveScan acc locs = acc := by
  induction locs with
  | nil => exact fun acc _ => rfl
  | cons l0 rest ih =>
    intro acc hall
    rw [presolveScan_cons_neg acc l0 rest (hall l0 (by simp))]
    exact ih acc (fun l hl => hall l (by simp [hl]))

/-- After the scan, the presolve condition fails at every scanned
location. -/
theorem presolveScan_cond_false (locs : List Loc) : ∀ (acc : Map),
    ∀ l ∈ locs, presolveCond (presolveScan acc locs) l = false := by
  induction locs with
  | nil =>
    intro acc l hl
    cases hl
  | cons l0 rest ih =>
    intro acc l hl
    by_cases hcond : presolveCond acc l0 = true
    · have hget := presolveCond_free acc l0 hcond
      rw [presolveScan_cons_pos acc l0 rest hcond]
      rcases List.mem_cons.mp hl with rfl | hmem
      · obtain ⟨_, _, _, h4⟩ :=
          presolveScan_mono rest (acc.setTile l Tile.blocked)
        have hb : (presolveScan (acc.setTile l Tile.blocked) rest).get l =
            some Tile.blocked := by
          rcases h4 l with h | ⟨_, hb⟩
          · rw [h, setTile_get_self _ _ _ (by rw [hget]; rfl)]
          · exact hb
        unfold presolveCond
        rw [hb]
        rfl
      · exact ih (acc.setTile l0 Tile.blocked) l hmem
    · rw [Bool.not_eq_true] at hcond
      rw [presolveScan_cons_neg acc l0 rest hcond]
      rcases List.mem_cons.mp hl with rfl | hmem
      · obtain ⟨hr1, hr2, hr3, h4⟩ := presolveScan_mono rest acc
        rcases h4 l with h | ⟨_, hb⟩
        · have hdim : (presolveScan acc rest).dim = acc.dim := by
            show ((presolveScan acc rest).height, (presolveScan acc rest).width)
              = (acc.height, acc.width)
            rw [hr3]
            unfold Map.width
            rw [hr2]
          rw [presolveCond_congr acc (presolveScan acc rest) hdim h4 l h]
          exact hcond
        · unfold presolveCond
          rw [hb]
          rfl
      · exact ih acc l hmem

/-- **C8**.  A successful `presolve` is monotone — both requirement
vectors are unchanged and the only tile change is `Free` to `Blocked` —
and idempotent: running it again on its output succeeds and returns the
output unchanged. -/
theorem camping_presolve_mono_idem (m m2 : Map) (h : presolve m = .ok m2) :
    m2.rowReq = m.rowReq ∧ m2.colReq = m.colReq ∧
    (∀ l, m2.get l = m.get l ∨
      (m.get l = some Tile.free ∧ m2.get l = some Tile.blocked)) ∧
    presolve m2 = .ok m2 := by
  unfold presolve at h
  by_cases hv : ((presolveScan m (Loc.gridIter m.dim)).isValid).isOk = true
  · rw [if_pos hv] at h
    injection h with h2
    subst h2
    obtain ⟨h1, h2, h3, h4⟩ := presolveScan_mono (Loc.gridIter m.dim) m
    refine ⟨h1, h2, h4, ?_⟩
    have hdim : (presolveScan m (Loc.gridIter m.dim)).dim = m.dim := by
      show ((presolveScan m (Loc.gridIter m.dim)).height,
          (presolveScan m (Loc.gridIter m.dim)).width) = (m.height, m.width)
      rw [h3]
      unfold Map.width
      rw [h2]
    unfold presolve
    rw [hdim, presolveScan_id (Loc.gridIter m.dim) _
      (fun l hl => presolveScan_cond_false (Loc.gridIter m.dim) m l hl)]
    rw [if_pos hv]
  · rw [if_neg hv] at h
    cases h

/-- `setTile` preserves the shape invariants. -/
theorem setTile_WF (m : Map) (l : Loc) (t : Tile) (h : m.WF) :
    (m.setTile l t).WF := by
  obtain ⟨h1, h2⟩ := h
  constructor
  · show (m.tiles.modify _ l.row).length = m.rowReq.length
    rw [List.length_modify]
    exact h1
  · intro r hr
    rw [show (m.setTile l t).tiles =
      m.tiles.modify (fun row => row.set l.col t) l.row from rfl] at hr
    rw [show (m.setTile l t).colReq = m.colReq from rfl]
    rw [List.mem_iff_get?] at hr
    obtain ⟨n, hn⟩ := hr
    by_cases hrow : n = l.row
    · subst hrow
      rw [get?_modify_self] at hn
      cases horig : m.tiles.get? l.row with
      | none =>
        rw [horig] at hn
        cases hn
      | some orig =>
        rw [horig] at hn
        injection hn with hn2
        rw [← hn2, List.length_set]
        exact h2 orig (List.get?_mem horig)
    · rw [List.get?_modifyNth_ne _ _ (Ne.symm hrow)] at hn
      exact h2 r (List.get?_mem hn)

/-- `ref_add_tent` preserves the shape invariants. -/
theorem refAddTent_WF (m : Map) (l : Loc) (m2 : Map) (hwf : m.WF)
    (h : m.refAddTent l = .ok m2) : m2.WF := by
  unfold Map.refAddTent at h
  cases hg : m.get l with
  | none =>
    rw [hg] at h
    cases h
  | some t =>
    rw [hg] at h
    replace h : (if t ≠ Tile.free then
        Except.error (PlacementError.notFree l t)
      else Except.ok (m.setTile l Tile.tent)) = Except.ok m2 := h
    by_cases hf : t = Tile.free
    · rw [if_neg (by simp [hf])] at h
      injection h with h2
      rw [← h2]
      exact setTile_WF m l Tile.tent hwf
    · rw [if_pos hf] at h
      cases h

/-- `ref_add_blocked` preserves the shape invariants. -/
theorem refAddBlocked_WF (m : Map) (l : Loc) (m2 : Map) (hwf : m.WF)
    (h : m.refAddBlocked l = .ok m2) : m2.WF := by
  unfold Map.refAddBlocked at h
  cases hg : m.get l with
  | none =>
    rw [hg] at h
    cases h
  | some t =>
    rw [hg] at h
    replace h : (if t ≠ Tile.free then
        Except.error (PlacementError.notFree l t)
      else Except.ok (m.setTile l Tile.blocked)) = Except.ok m2 := h
    by_cases hf : t = Tile.free
    · rw [if_neg (by simp [hf])] at h
      injection h with h2
      rw [← h2]
      exact setTile_WF m l Tile.blocked hwf
    · rw [if_pos hf] at h
      cases h

/-- `add_blocked(..).is_ok()` preserves the shape invariants. -/
theorem addBlockedOk_WF (v : MView) (l : Loc) (h : v.m.WF) :
    (v.addBlockedOk l).1.m.WF := by
  unfold MView.addBlockedOk
  cases hr : v.m.refAddBlocked (v.loc l) with
  | ok m2 => exact refAddBlocked_WF _ _ _ h hr
  | error e => exact h

/-- `add_tent(..).with_context(..)?` preserves the shape invariants. -/
theorem addTentE_WF (v : MView) (l : Loc) (v2 : MView) (h : v.m.WF)
    (he : v.addTentE l = .ok v2) : v2.m.WF := by
  unfold MView.addTentE at he
  cases hr : v.m.refAddTent (v.loc l) with
  | ok m2 =>
    rw [hr] at he
    injection he with h2
    rw [← h2]
    exact refAddTent_WF _ _ _ h hr
  | error e =>
    rw [hr] at he
    cases he

/-- `add_blocked(..).with_context(..)?` preserves the shape invariants. -/
theorem addBlockedE_WF (v : MView) (l : Loc) (v2 : MView) (h : v.m.WF)
    (he : v.addBlockedE l = .ok v2) : v2.m.WF := by
  unfold MView.addBlockedE at he
  cases hr : v.m.refAddBlocked (v.loc l) with
  | ok m2 =>
    rw [hr] at he
    injection he with h2
    rw [← h2]
    exact refAddBlocked_WF _ _ _ h hr
  | error e =>
    rw [hr] at he
    cases he

/-- The blocking fold of `block_row_if_finished` preserves the shape
invariants. -/
theorem foldBlock_WF (rowIndex : Nat) (cols : List Nat) :
    ∀ (acc : MView × Bool), acc.1.m.WF →
    (cols.foldl (fun acc colIndex =>
        let r := acc.1.addBlockedOk ⟨rowIndex, colIndex⟩
        (r.1, acc.2 || r.2)) acc).1.m.WF := by
  induction cols with
  | nil => exact fun acc h => h
  | cons c rest ih =>
    intro acc h
    rw [List.foldl_cons]
    exact ih _ (addBlockedOk_WF _ _ h)

/-- `block_row_if_finished` preserves the shape invariants. -/
theorem blockRowIfFinished_WF (v : MView) (i req : Nat) (h : v.m.WF) :
    (blockRowIfFinished v i req).1.m.WF := by
  show (if (countTiles (v.rowTiles i) (fun t => t == Tile.tent) == req) = true
      then List.foldl (fun acc colIndex =>
          let r := acc.1.addBlockedOk ⟨i, colIndex⟩
          (r.1, acc.2 || r.2)) (v, false) (List.range v.width)
      else (v, false)).1.m.WF
  split
  · exact foldBlock_WF i _ (v, false) h
  · exact h

/-- One vertical blocking step preserves the shape invariants. -/
theorem blockVertStep_WF (rowIndex : Nat) (acc : MView × Bool)
    (colIndex : Nat) (h : acc.1.m.WF) :
    (blockVertStep rowIndex acc colIndex).1.m.WF := by
  have h1 : (if rowIndex > 0 then
      ((acc.1.addBlockedOk ⟨rowIndex - 1, colIndex⟩).1,
        acc.2 || (acc.1.addBlockedOk ⟨rowIndex - 1, colIndex⟩).2)
    else acc).1.m.WF := by
    split
    · exact addBlockedOk_WF _ _ h
    · exact h
  exact addBlockedOk_WF _ _ h1

/-- The vertical blocking fold preserves the shape invariants. -/
theorem foldVert_WF (rowIndex : Nat) (cols : List Nat) :
    ∀ (acc : MView × Bool), acc.1.m.WF →
    (cols.foldl (blockVertStep rowIndex) acc).1.m.WF := by
  induction cols with
  | nil => exact fun acc h => h
  | cons c rest ih =>
    intro acc h
    rw [List.foldl_cons]
    exact ih _ (blockVertStep_WF _ _ _ h)

/-- A conditional blocking step preserves the shape invariants. -/
theorem stepBlock_WF (c : Prop) [Decidable c] (v : MView) (l : Loc)
    (h : v.m.WF) : (if c then (v.addBlockedOk l).1 else v).m.WF := by
  split
  · exact addBlockedOk_WF _ _ h
  · exact h

/-- `blockCorners` preserves the shape invariants. -/
theorem blockCorners_WF (rowIndex runStart runEnd : Nat) (v : MView)
    (h : v.m.WF) : (blockCorners rowIndex runStart runEnd v).m.WF := by
  unfold blockCorners
  exact addBlockedOk_WF _ _
    (stepBlock_WF _ _ _ (stepBlock_WF _ _ _ (stepBlock_WF _ _ _ h)))

/-- `fillAlternate` preserves the shape invariants. -/
theorem fillAlternate_WF (rowIndex runStart : Nat) :
    ∀ (n i : Nat) (v v2 : MView), v.m.WF →
    fillAlternate rowIndex runStart v i n = .ok v2 → v2.m.WF := by
  intro n
  induction n with
  | zero =>
    intro i v v2 h he
    replace he : (Except.ok v : Except String MView) = .ok v2 := he
    injection he with h2
    rw [← h2]
    exact h
  | succ n ih =>
    intro i v v2 h he
    simp only [fillAlternate] at he
    by_cases hp : (i % 2 == 0 : Bool) = true
    · rw [if_pos hp] at he
      cases ht : v.addTentE ⟨rowIndex, runStart + i⟩ with
      | ok vx =>
        rw [ht] at he
        exact ih (i + 1) vx v2 (addTentE_WF _ _ _ h ht) he
      | error e =>
        rw [ht] at he
        exact Except.noConfusion he
    · rw [if_neg hp] at he
      cases ht : v.addBlockedE ⟨rowIndex, runStart + i⟩ with
      | ok vx =>
        rw [ht] at he
        exact ih (i + 1) vx v2 (addBlockedE_WF _ _ _ h ht) he
      | error e =>
        rw [ht] at he
        exact Except.noConfusion he

/-- The saturation action preserves the shape invariants. -/
theorem saturationAction_WF (rowIndex : Nat) (v : MView) (changed : Bool)
    (runStart runEnd : Nat) (v2 : MView) (c2 : Bool) (h : v.m.WF)
    (he : saturationAction rowIndex v changed runStart runEnd =
      .ok (v2, c2)) : v2.m.WF := by
  replace he : (if runEnd - runStart ≠ 0 then
      if ((runEnd - runStart) % 2 == 1 : Bool) = true then
        match fillAlternate rowIndex runStart
            (blockCorners rowIndex runStart runEnd
              ((List.range' runStart (runEnd - runStart)).foldl
                (blockVertStep rowIndex) (v, changed)).1) 0
            (runEnd - runStart) with
        | Except.error e => (Except.error e : Except String (MView × Bool))
        | Except.ok v3 => Except.ok (v3, true)
      else Except.ok ((List.range' runStart (runEnd - runStart)).foldl
          (blockVertStep rowIndex) (v, changed))
    else Except.ok (v, changed)) = Except.ok (v2, c2) := he
  have hacc : ((List.range' runStart (runEnd - runStart)).foldl
      (blockVertStep rowIndex) (v, changed)).1.m.WF :=
    foldVert_WF rowIndex _ (v, changed) h
  by_cases h0 : runEnd - runStart ≠ 0
  · rw [if_pos h0] at he
    by_cases hodd : ((runEnd - runStart) % 2 == 1 : Bool) = true
    · rw [if_pos hodd] at he
      cases hfa : fillAlternate rowIndex runStart
          (blockCorners rowIndex runStart runEnd
            ((List.range' runStart (runEnd - runStart)).foldl
              (blockVertStep rowIndex) (v, changed)).1) 0
          (runEnd - runStart) with
      | ok v3 =>
        rw [hfa] at he
        injection he with h2
        rw [Prod.mk.injEq] at h2
        rw [← h2.1]
        exact fillAlternate_WF rowIndex runStart _ _ _ _
          (blockCorners_WF _ _ _ _ hacc) hfa
      | error e =>
        rw [hfa] at he
        cases he
    · rw [if_neg hodd] at he
      injection he with h2
      rw [h2] at hacc
      exact hacc
  · rw [if_neg h0] at he
    injection he with h2
    rw [Prod.mk.injEq] at h2
    rw [← h2.1]
    exact h

/-- The near-saturation action preserves the shape invariants. -/
theorem nearSaturationAction_WF (rowIndex : Nat) (v : MView)
    (s : Bool × Option (Nat × Nat)) (runStart runEnd : Nat) (v2 : MView)
    (s2 : Bool × Option (Nat × Nat)) (h : v.m.WF)
    (he : nearSaturationAction rowIndex v s runStart runEnd =
      .ok (v2, s2)) : v2.m.WF := by
  unfold nearSaturationAction at he
  by_cases h0 : runEnd - runStart = 0
  · rw [if_pos h0] at he
    cases he
  · rw [if_neg h0] at he
    cases hs : s.2 with
    | some p =>
      obtain ⟨ps, pe⟩ := p
      rw [hs] at he
      replace he : (if (runStart - pe == 1 : Bool) = true ∧
            ((pe - ps) % 2 == 1 : Bool) = true ∧
            ((runEnd - runStart) % 2 == 1 : Bool) = true then
          (Except.ok ((blockVertStep rowIndex (v, s.1) pe).1,
              ((blockVertStep rowIndex (v, s.1) pe).2,
                some (runStart, runEnd))) :
            Except String (MView × (Bool × Option (Nat × Nat))))
        else Except.ok (v, (s.1, some (runStart, runEnd)))) =
          Except.ok (v2, s2) := he
      by_cases hc : (runStart - pe == 1 : Bool) = true ∧
          ((pe - ps) % 2 == 1 : Bool) = true ∧
          ((runEnd - runStart) % 2 == 1 : Bool) = true
      · rw [if_pos hc] at he
        injection he with h2
        rw [Prod.mk.injEq] at h2
        rw [← h2.1]
        exact (blockVertStep_WF rowIndex (v, s.1) pe h)
      · rw [if_neg hc] at he
        injection he with h2
        rw [Prod.mk.injEq] at h2
        rw [← h2.1]
        exact h
    | none =>
      rw [hs] at he
      injection he with h2
      rw [Prod.mk.injEq] at h2
      rw [← h2.1]
      exact h

/-- The `run_iter` cursor loop preserves the shape invariants whenever
the action does. -/
theorem runIterGo_WF {σ : Type} (rowIndex : Nat)
    (action : MView → σ → Nat → Nat → Except String (MView × σ))
    (haction : ∀ (v : MView) (s : σ) (a b : Nat) (v2 : MView) (s2 : σ),
      v.m.WF → action v s a b = .ok (v2, s2) → v2.m.WF)
    (cols : List Nat) : ∀ (v : MView) (s : σ) (runStart width : Nat)
      (v2 : MView) (s2 : σ), v.m.WF →
    runIter.go rowIndex action v s runStart cols width = .ok (v2, s2) →
    v2.m.WF := by
  induction cols with
  | nil =>
    intro v s runStart width v2 s2 h he
    replace he : (if runStart < width then action v s runStart width
        else .ok (v, s)) = .ok (v2, s2) := he
    by_cases hlt : runStart < width
    · rw [if_pos hlt] at he
      exact haction v s runStart width v2 s2 h he
    · rw [if_neg hlt] at he
      injection he with h2
      rw [Prod.mk.injEq] at h2
      rw [← h2.1]
      exact h
  | cons c rest ih =>
    intro v s runStart width v2 s2 h he
    unfold runIter.go at he
    cases hg : v.get ⟨rowIndex, c⟩ with
    | none =>
      rw [hg] at he
      cases he
    | some t =>
      rw [hg] at he
      cases t with
      | tree =>
        replace he : (if c - runStart > 0 then
            match action v s runStart c with
            | .error e => .error e
            | .ok (vx, sx) =>
              runIter.go rowIndex action vx sx (c + 1) rest width
          else runIter.go rowIndex action v s (c + 1) rest width) =
            .ok (v2, s2) := he
        by_cases hlt : c - runStart > 0
        · rw [if_pos hlt] at he
          cases ha : action v s runStart c with
          | error e =>
            rw [ha] at he
            cases he
          | ok p =>
            obtain ⟨vx, sx⟩ := p
            rw [ha] at he
            exact ih vx sx (c + 1) width v2 s2
              (haction v s runStart c vx sx h ha) he
        · rw [if_neg hlt] at he
          exact ih v s (c + 1) width v2 s2 h he
      | blocked =>
        replace he : (if c - runStart > 0 then
            match action v s runStart c with
            | .error e => .error e
            | .ok (vx, sx) =>
              runIter.go rowIndex action vx sx (c + 1) rest width
          else runIter.go rowIndex action v s (c + 1) rest width) =
            .ok (v2, s2) := he
        by_cases hlt : c - runStart > 0
        · rw [if_pos hlt] at he
          cases ha : action v s runStart c with
          | error e =>
            rw [ha] at he
            cases he
          | ok p =>
            obtain ⟨vx, sx⟩ := p
            rw [ha] at he
            exact ih vx sx (c + 1) width v2 s2
              (haction v s runStart c vx sx h ha) he
        · rw [if_neg hlt] at he
          exact ih v s (c + 1) width v2 s2 h he
      | tent =>
        replace he : (if (runStart == c : Bool) = true then
            runIter.go rowIndex action v s (c + 1) rest width
          else .error "panic: assert_eq(run_start, col_index) in run_iter")
            = .ok (v2, s2) := he
        by_cases heq : (runStart == c : Bool) = true
        · rw [if_pos heq] at he
          exact ih v s (c + 1) width v2 s2 h he
        · rw [if_neg heq] at he
          cases he
      | free => exact ih v s runStart width v2 s2 h he

/-- `handle_row_runs` preserves the shape invariants. -/
theorem handleRowRuns_WF (v : MView) (rowIndex req : Nat) (v2 : MView)
    (c2 : Bool) (h : v.m.WF)
    (he : handleRowRuns v rowIndex req = .ok (v2, c2)) : v2.m.WF := by
  replace he : (if countTiles (v.rowTiles rowIndex)
        (fun t => t == Tile.tent) > req then
      (.error "panic: usize underflow in handle_row_runs" :
        Except String (MView × Bool))
    else if (v.numPossibleRowTents rowIndex ==
        req - countTiles (v.rowTiles rowIndex) (fun t => t == Tile.tent) :
          Bool) = true then
      match runIter v rowIndex false (saturationAction rowIndex) with
      | .error e => .error e
      | .ok (vx, changed) => .ok (vx, changed)
    else if (v.numPossibleRowTents rowIndex ==
        req - countTiles (v.rowTiles rowIndex) (fun t => t == Tile.tent)
          + 1 : Bool) = true then
      match runIter v rowIndex (false, none)
          (nearSaturationAction rowIndex) with
      | .error e => .error e
      | .ok (vx, sx) => .ok (vx, sx.1)
    else .ok (v, false)) = .ok (v2, c2) := he
  by_cases h1 : countTiles (v.rowTiles rowIndex)
      (fun t => t == Tile.tent) > req
  · rw [if_pos h1] at he
    cases he
  · rw [if_neg h1] at he
    by_cases h2 : (v.numPossibleRowTents rowIndex ==
        req - countTiles (v.rowTiles rowIndex) (fun t => t == Tile.tent) :
          Bool) = true
    · rw [if_pos h2] at he
      cases hr : runIter v rowIndex false (saturationAction rowIndex) with
      | error e =>
        rw [hr] at he
        cases he
      | ok p =>
        obtain ⟨vx, ch⟩ := p
        rw [hr] at he
        injection he with h3
        rw [Prod.mk.injEq] at h3
        rw [← h3.1]
        exact runIterGo_WF rowIndex (saturationAction rowIndex)
          (fun va sa a b v2a s2a ha hea =>
            saturationAction_WF rowIndex va sa a b v2a s2a ha hea)
          _ v false 0 v.width vx ch h hr
    · rw [if_neg h2] at he
      by_cases h3 : (v.numPossibleRowTents rowIndex ==
          req - countTiles (v.rowTiles rowIndex) (fun t => t == Tile.tent)
            + 1 : Bool) = true
      · rw [if_pos h3] at he
        cases hr : runIter v rowIndex (false, none)
            (nearSaturationAction rowIndex) with
        | error e =>
          rw [hr] at he
          cases he
        | ok p =>
          obtain ⟨vx, sx⟩ := p
          rw [hr] at he
          injection he with h4
          rw [Prod.mk.injEq] at h4
          rw [← h4.1]
          exact runIterGo_WF rowIndex (nearSaturationAction rowIndex)
            (fun va sa a b v2a s2a ha hea =>
              nearSaturationAction_WF rowIndex va sa a b v2a s2a ha hea)
            _ v (false, none) 0 v.width vx sx h hr
      · rw [if_neg h3] at he
        injection he with h4
        rw [Prod.mk.injEq] at h4
        rw [← h4.1]
        exact h

/-- The row loop of `handle_rows` preserves the shape invariants. -/
theorem handleRowsGo_WF (reqs : List Nat) : ∀ (v : MView) (changed : Bool)
    (i : Nat) (v2 : MView) (c2 : Bool), v.m.WF →
    handleRows.go v changed i reqs = .ok (v2, c2) → v2.m.WF := by
  induction reqs with
  | nil =>
    intro v changed i v2 c2 h he
    replace he : (Except.ok (v, changed) : Except String (MView × Bool)) =
      .ok (v2, c2) := he
    injection he with h2
    rw [Prod.mk.injEq] at h2
    rw [← h2.1]
    exact h
  | cons req rest ih =>
    intro v changed i v2 c2 h he
    unfold handleRows.go at he
    cases hr : handleRowRuns v i req with
    | error e =>
      rw [hr] at he
      cases he
    | ok p =>
      obtain ⟨vx, c1⟩ := p
      rw [hr] at he
      have hvx : vx.m.WF := handleRowRuns_WF v i req vx c1 h hr
      exact ih _ _ (i + 1) v2 c2 (blockRowIfFinished_WF vx i req hvx) he

/-- `handle_rows` preserves the shape invariants. -/
theorem handleRows_WF (v : MView) (v2 : MView) (c2 : Bool) (h : v.m.WF)
    (he : handleRows v = .ok (v2, c2)) : v2.m.WF :=
  handleRowsGo_WF v.rowReqs v false 0 v2 c2 h he

/-- `fill_tents` preserves the shape invariants. -/
theorem fillTents_WF (m m2 : Map) (c : Bool) (h : m.WF)
    (he : fillTents m = .ok (m2, c)) : m2.WF := by
  unfold fillTents at he
  cases h1 : handleRows ⟨false, m⟩ with
  | error e =>
    rw [h1] at he
    cases he
  | ok p1 =>
    obtain ⟨v1, c1⟩ := p1
    rw [h1] at he
    have hv1 : v1.m.WF := handleRows_WF ⟨false, m⟩ v1 c1 h h1
    replace he : (handleRows (⟨true, v1.m⟩ : MView) >>= fun d =>
        match d with
        | (v2, c2) =>
          if ((c1 || c2 : Bool) = true) = (m ≠ v2.m) then
            (pure (v2.m, (c1 || c2 : Bool)) : Except String (Map × Bool))
          else Except.error
            "panic: assert_eq(changed, old_map != map) in fill_tents") =
        Except.ok (m2, c) := he
    cases h2 : handleRows ⟨true, v1.m⟩ with
    | error e =>
      rw [h2] at he
      exact Except.noConfusion he
    | ok p2 =>
      obtain ⟨v2, c2⟩ := p2
      rw [h2] at he
      have hv2 : v2.m.WF := handleRows_WF ⟨true, v1.m⟩ v2 c2 hv1 h2
      replace he : (if ((c1 || c2 : Bool) = true) = (m ≠ v2.m) then
          (Except.ok (v2.m, (c1 || c2 : Bool)) : Except String (Map × Bool))
        else Except.error
          "panic: assert_eq(changed, old_map != map) in fill_tents")
          = Except.ok (m2, c) := he
      by_cases hcond : ((c1 || c2 : Bool) = true) = (m ≠ v2.m)
      · rw [if_pos hcond] at he
        injection he with h3
        rw [Prod.mk.injEq] at h3
        rw [← h3.1]
        exact hv2
      · rw [if_neg hcond] at he
        cases he

/-- `solve_step` preserves the shape invariants. -/
theorem solveStep_WF (m m2 : Map) (changed : Bool) (h : m.WF)
    (he : solveStep m = .ok (m2, changed)) : m2.WF := by
  unfold solveStep at he
  cases hf : fillTents m with
  | error e =>
    rw [hf] at he
    cases he
  | ok p =>
    obtain ⟨mx, cx⟩ := p
    rw [hf] at he
    have hwfx := fillTents_WF m mx cx h hf
    replace he : (if (mx.isValid).isOk = true then
        if cx = true ∧ m = mx then
          (Except.error "panic: ensure(old_map != map) in solve_step" :
            Except String (Map × Bool))
        else .ok (mx, cx)
      else .error "solve_step: invalid map") = .ok (m2, changed) := he
    by_cases hv : (mx.isValid).isOk = true
    · rw [if_pos hv] at he
      by_cases hc : cx = true ∧ m = mx
      · rw [if_pos hc] at he
        cases he
      · rw [if_neg hc] at he
        injection he with h2
        rw [Prod.mk.injEq] at h2
        rw [← h2.1]
        exact hwfx
    · rw [if_neg hv] at he
      cases he

/-- The presolve scan preserves the shape invariants. -/
theorem presolveScan_WF (locs : List Loc) : ∀ (acc : Map), acc.WF →
    (presolveScan acc locs).WF := by
  induction locs with
  | nil => exact fun acc h => h
  | cons l0 rest ih =>
    intro acc h
    by_cases hcond : presolveCond acc l0 = true
    · rw [presolveScan_cons_pos acc l0 rest hcond]
      exact ih _ (setTile_WF acc l0 Tile.blocked h)
    · rw [Bool.not_eq_true] at hcond
      rw [presolveScan_cons_neg acc l0 rest hcond]
      exact ih acc h

/-- `presolve` preserves the shape invariants. -/
theorem presolve_WF (m m2 : Map) (h : m.WF) (he : presolve m = .ok m2) :
    m2.WF := by
  unfold presolve at he
  by_cases hv : ((presolveScan m (Loc.gridIter m.dim)).isValid).isOk = true
  · rw [if_pos hv] at he
    injection he with h2
    rw [← h2]
    exact presolveScan_WF (Loc.gridIter m.dim) m h
  · rw [if_neg hv] at he
    cases he

/-- `add_tent(..).expect(..)` preserves the shape invariants. -/
theorem addTentExpect_WF (m : Map) (l : Loc) (h : m.WF) :
    (addTentExpect m l).WF := by
  unfold addTentExpect
  cases hr : m.refAddTent l with
  | ok m2 => exact refAddTent_WF m l m2 h hr
  | error e => exact h

/-- The blocked-guess fallback preserves the shape invariants. -/
theorem toOptionGetD_WF (m : Map) (l : Loc) (h : m.WF) :
    ((m.refAddBlocked l).toOption.getD m).WF := by
  cases hr : m.refAddBlocked l with
  | ok m2 => exact refAddBlocked_WF m l m2 h hr
  | error e => exact h

/-- `next_try` yields a well-formed map and stack from a well-formed
stack. -/
theorem nextTry_WF : ∀ (stack : List (Map × Nat)) (next : Map)
    (stack2 : List (Map × Nat)), (∀ f ∈ stack, f.1.WF) →
    nextTry stack = some (next, stack2) →
    next.WF ∧ ∀ f ∈ stack2, f.1.WF := by
  intro stack
  induction stack with
  | nil =>
    intro next stack2 _ h
    cases h
  | cons fr rest ih =>
    intro next stack2 hall h
    obtain ⟨prevMap, gi⟩ := fr
    have hprev : prevMap.WF := hall (prevMap, gi) (by simp)
    unfold nextTry at h
    cases hg : guessNext prevMap gi with
    | some t =>
      obtain ⟨l, tile, gi2⟩ := t
      rw [hg] at h
      injection h with h2
      rw [Prod.mk.injEq] at h2
      obtain ⟨hfst, hsnd⟩ := h2
      subst hfst
      subst hsnd
      constructor
      · by_cases ht : tile = true
        · rw [if_pos ht]
          exact addTentExpect_WF prevMap l hprev
        · rw [if_neg ht]
          exact toOptionGetD_WF prevMap l hprev
      · intro f hf
        rcases List.mem_cons.mp hf with heq | hf2
        · rw [heq]
          exact hprev
        · exact hall f (List.mem_cons_of_mem _ hf2)
    | none =>
      rw [hg] at h
      exact ih next stack2 (fun f hf => hall f (List.mem_cons_of_mem _ hf)) h

/-- Any map returned inside `Ok(Some(..))` by the camping search loop is
well-formed and complete. -/
theorem solveLoop_sound (fuel : Nat) : ∀ (cur : Map)
    (stack : List (Map × Nat)) (sol : Map),
    cur.WF → (∀ f ∈ stack, f.1.WF) →
    solveLoop fuel cur stack = some (.ok (some sol)) →
    sol.WF ∧ sol.isComplete = true := by
  induction fuel with
  | zero =>
    intro cur stack sol _ _ he
    cases he
  | succ fuel ih =>
    intro cur stack sol hcur hstack he
    have hstep : solveLoop (fuel + 1) cur stack =
        (match solveStep cur with
        | Except.error e => some (Except.error e)
        | Except.ok (cur2, changed) =>
          if (cur2.isValid).isOk = false then
            match nextTry stack with
            | none => some (Except.ok none)
            | some (next, stack2) => solveLoop fuel next stack2
          else if cur2.isComplete = true then some (Except.ok (some cur2))
          else if changed = false then
            match guessNext cur2 0 with
            | some (l, tile, gi2) =>
              let m2 := if tile = true then addTentExpect cur2 l
                        else (cur2.refAddBlocked l).toOption.getD cur2
              solveLoop fuel m2 ((cur2, gi2) :: stack)
            | none =>
              match nextTry stack with
              | none => some (Except.ok none)
              | some (next, stack2) => solveLoop fuel next stack2
          else solveLoop fuel cur2 stack) := rfl
    rw [hstep] at he
    cases hs : solveStep cur with
    | error e =>
      rw [hs] at he
      injection he with h2
      exact Except.noConfusion h2
    | ok p =>
      obtain ⟨cur2, changed⟩ := p
      rw [hs] at he
      replace he : (if (cur2.isValid).isOk = false then
          match nextTry stack with
          | none => some (Except.ok none)
          | some (next, stack2) => solveLoop fuel next stack2
        else if cur2.isComplete = true then some (Except.ok (some cur2))
        else if changed = false then
          match guessNext cur2 0 with
          | some (l, tile, gi2) =>
            let m2 := if tile = true then addTentExpect cur2 l
                      else (cur2.refAddBlocked l).toOption.getD cur2
            solveLoop fuel m2 ((cur2, gi2) :: stack)
          | none =>
            match nextTry stack with
            | none => some (Except.ok none)
            | some (next, stack2) => solveLoop fuel next stack2
        else solveLoop fuel cur2 stack) = some (.ok (some sol)) := he
      have hwf2 : cur2.WF := solveStep_WF cur cur2 changed hcur hs
      by_cases hv : (cur2.isValid).isOk = false
      · rw [if_pos hv] at he
        cases hn : nextTry stack with
        | none =>
          rw [hn] at he
          injection he with h2
          injection h2 with h3
          exact Option.noConfusion h3
        | some q =>
          obtain ⟨next, stack2⟩ := q
          rw [hn] at he
          obtain ⟨hnext, hstack2⟩ := nextTry_WF stack next stack2 hstack hn
          exact ih next stack2 sol hnext hstack2 he
      · rw [if_neg hv] at he
        by_cases hcomp : cur2.isComplete = true
        · rw [if_pos hcomp] at he
          injection he with h2
          injection h2 with h3
          injection h3 with h4
          rw [← h4]
          exact ⟨hwf2, hcomp⟩
        · rw [if_neg hcomp] at he
          by_cases hch : changed = false
          · rw [if_pos hch] at he
            cases hg : guessNext cur2 0 with
            | some t =>
              obtain ⟨l, tile, gi2⟩ := t
              rw [hg] at he
              refine ih _ _ sol ?_ ?_ he
              · by_cases ht : tile = true
                · rw [if_pos ht]
                  exact addTentExpect_WF cur2 l hwf2
                · rw [if_neg ht]
                  exact toOptionGetD_WF cur2 l hwf2
              · intro f hf
                rcases List.mem_cons.mp hf with heq | hf2
                · rw [heq]
                  exact hwf2
                · exact hstack f hf2
            | none =>
              rw [hg] at he
              cases hn : nextTry stack with
              | none =>
                rw [hn] at he
                injection he with h2
                injection h2 with h3
                exact Option.noConfusion h3
              | some q =>
                obtain ⟨next, stack2⟩ := q
                rw [hn] at he
                obtain ⟨hnext, hstack2⟩ :=
                  nextTry_WF stack next stack2 hstack hn
                exact ih next stack2 sol hnext hstack2 he
          · rw [if_neg hch] at he
            exact ih cur2 stack sol hwf2 hstack he

/-- `is_valid` succeeding means all three checks succeed. -/
theorem isValid_parts (m : Map) (h : (m.isValid).isOk = true) :
    m.validRows = .ok () ∧ m.validCols = .ok () ∧ m.validTents = .ok () := by
  unfold Map.isValid at h
  cases h1 : m.validRows with
  | error e =>
    rw [h1] at h
    exact Bool.noConfusion h
  | ok u =>
    cases u
    rw [h1] at h
    cases h2 : m.validCols with
    | error e =>
      rw [h2] at h
      exact Bool.noConfusion h
    | ok u2 =>
      cases u2
      rw [h2] at h
      cases h3 : m.validTents with
      | error e =>
        rw [h3] at h
        exact Bool.noConfusion h
      | ok u3 =>
        cases u3
        exact ⟨rfl, rfl, rfl⟩

/-- `is_complete` means no free tile and a passing validity check. -/
theorem isComplete_parts (m : Map) (h : m.isComplete = true) :
    m.noFree = true ∧ (m.isValid).isOk = true := by
  unfold Map.isComplete at h
  rw [Bool.and_eq_true] at h
  exact ⟨h.1, h.2⟩

/-- Pointwise reading of `noFree`. -/
theorem noFree_forall (m : Map) (h : m.noFree = true) :
    ∀ row ∈ m.tiles, ∀ t ∈ row, t ≠ Tile.free := by
  unfold Map.noFree at h
  rw [List.all_eq_true] at h
  intro row hrow t ht
  have h2 := h row hrow
  rw [List.all_eq_true] at h2
  have h3 := h2 t ht
  simpa using h3

/-- A passing `checkLine` bounds the tent count by the requirement on
both sides. -/
theorem checkLine_none (ts : List Tile) (req : Nat)
    (h : checkLine ts req = none) :
    countTiles ts (fun t => t == Tile.tent) ≤ req ∧
    req ≤ countTiles ts (fun t => t == Tile.free || t == Tile.tent) := by
  replace h : (if countTiles ts (fun t => t == Tile.tent) > req then
      some (0, countTiles ts (fun t => t == Tile.tent))
    else if countTiles ts (fun t => t == Tile.free || t == Tile.tent) < req
    then some (1, countTiles ts (fun t => t == Tile.free || t == Tile.tent))
    else none) = none := h
  by_cases h1 : countTiles ts (fun t => t == Tile.tent) > req
  · rw [if_pos h1] at h
    cases h
  · rw [if_neg h1] at h
    by_cases h2 : countTiles ts
        (fun t => t == Tile.free || t == Tile.tent) < req
    · rw [if_pos h2] at h
      cases h
    · exact ⟨by omega, by omega⟩

/-- With no free tile, possible tents and placed tents coincide. -/
theorem countTiles_free_tent (ts : List Tile)
    (hnf : ∀ t ∈ ts, t ≠ Tile.free) :
    countTiles ts (fun t => t == Tile.free || t == Tile.tent) =
      countTiles ts (fun t => t == Tile.tent) := by
  unfold countTiles
  congr 1
  apply List.filter_congr
  intro t ht
  have h2 := hnf t ht
  cases t with
  | free => exact absurd rfl h2
  | tree => rfl
  | tent => rfl
  | blocked => rfl

/-- On a free-less line a passing `checkLine` pins the tent count. -/
theorem checkLine_exact (ts : List Tile) (req : Nat)
    (hnf : ∀ t ∈ ts, t ≠ Tile.free) (h : checkLine ts req = none) :
    countTiles ts (fun t => t == Tile.tent) = req := by
  obtain ⟨ha, hb⟩ := checkLine_none ts req h
  rw [countTiles_free_tent ts hnf] at hb
  omega

/-- The row loop of `is_valid` checks every row. -/
theorem validRows_go_spec (m : Map) : ∀ (rows : List (List Tile)) (i : Nat),
    Map.validRows.go m i rows = .ok () →
    ∀ k row, rows.get? k = some row →
      checkLine row ((m.rowReq.get? (i + k)).getD 0) = none := by
  intro rows
  induction rows with
  | nil =>
    intro i h k row hk
    exact Option.noConfusion hk
  | cons r rest ih =>
    intro i h k row hk
    simp only [Map.validRows.go] at h
    cases hc : checkLine r ((m.rowReq.get? i).getD 0) with
    | some p =>
      rw [hc] at h
      obtain ⟨a, n⟩ := p
      cases a with
      | zero => exact Except.noConfusion h
      | succ a2 => exact Except.noConfusion h
    | none =>
      rw [hc] at h
      cases k with
      | zero =>
        rw [List.get?_cons_zero] at hk
        injection hk with h2
        subst h2
        rw [Nat.add_zero]
        exact hc
      | succ k =>
        rw [List.get?_cons_succ] at hk
        have h3 := ih (i + 1) h k row hk
        rw [show i + (k + 1) = (i + 1) + k by omega]
        exact h3

/-- The column loop of `is_valid` checks every column. -/
theorem validCols_go_spec (m : Map) : ∀ (rem i : Nat),
    Map.validCols.go m i rem = .ok () →
    ∀ j, i ≤ j → j < i + rem →
      checkLine (m.colTiles j) ((m.colReq.get? j).getD 0) = none := by
  intro rem
  induction rem with
  | zero =>
    intro i h j h1 h2
    omega
  | succ rem ih =>
    intro i h j h1 h2
    simp only [Map.validCols.go] at h
    cases hc : checkLine (m.colTiles i) ((m.colReq.get? i).getD 0) with
    | some p =>
      rw [hc] at h
      obtain ⟨a, n⟩ := p
      cases a with
      | zero => exact Except.noConfusion h
      | succ a2 => exact Except.noConfusion h
    | none =>
      rw [hc] at h
      by_cases hj : j = i
      · subst hj
        exact hc
      · exact ih (i + 1) h j (by omega) (by omega)

/-- Column tiles come from rows of the map. -/
theorem colTiles_mem (m : Map) (i : Nat) (t : Tile)
    (ht : t ∈ m.colTiles i) : ∃ row ∈ m.tiles, t ∈ row := by
  unfold Map.colTiles at ht
  rw [List.mem_filterMap] at ht
  obtain ⟨row, hrow, hget⟩ := ht
  exact ⟨row, hrow, List.get?_mem hget⟩

/-- Valid rows of a free-less map have exact tent counts. -/
theorem rowCountsExact_of (m : Map) (hv : m.validRows = .ok ())
    (hnf : m.noFree = true) : m.rowCountsExact := by
  intro i hi
  have hrow : ∃ row, m.tiles.get? i = some row := by
    cases hr : m.tiles.get? i with
    | none =>
      have := List.get?_eq_none.mp hr
      unfold Map.height at hi
      omega
    | some row => exact ⟨row, rfl⟩
  obtain ⟨row, hrow⟩ := hrow
  have hcl := validRows_go_spec m m.tiles 0 hv i row hrow
  rw [Nat.zero_add] at hcl
  have hnf2 : ∀ t ∈ row, t ≠ Tile.free :=
    fun t ht => noFree_forall m hnf row (List.get?_mem hrow) t ht
  have h3 := checkLine_exact row _ hnf2 hcl
  unfold Map.rowTiles
  rw [hrow]
  exact h3

/-- Valid columns of a free-less map have exact tent counts. -/
theorem colCountsExact_of (m : Map) (hv : m.validCols = .ok ())
    (hnf : m.noFree = true) : m.colCountsExact := by
  intro i hi
  have hcl := validCols_go_spec m m.width 0 hv i (by omega) (by omega)
  have hnf2 : ∀ t ∈ m.colTiles i, t ≠ Tile.free := by
    intro t ht
    obtain ⟨row, hrow, htr⟩ := colTiles_mem m i t ht
    exact noFree_forall m hnf row hrow t htr
  exact checkLine_exact _ _ hnf2 hcl

/-- The tent loop of `is_valid` checks every listed location. -/
theorem validTents_go_spec (m : Map) : ∀ (ls : List Loc),
    Map.validTents.go m ls = .ok () →
    ∀ l ∈ ls, m.checkTentAt l = .ok () := by
  intro ls
  induction ls with
  | nil =>
    intro h l hl
    cases hl
  | cons l0 rest ih =>
    intro h l hl
    unfold Map.validTents.go at h
    cases hc : m.checkTentAt l0 with
    | error e =>
      rw [hc] at h
      exact Except.noConfusion h
    | ok u =>
      cases u
      rw [hc] at h
      rcases List.mem_cons.mp hl with rfl | hmem
      · exact hc
      · exact ih h l hmem

/-- A passing tent check at a tent location yields both tent rules. -/
theorem checkTentAt_props (m : Map) (l : Loc)
    (ht : m.get l = some Tile.tent) (h : m.checkTentAt l = .ok ()) :
    Tile.tree ∈ m.adjacentTiles l ∧ Tile.tent ∉ m.neighborTiles l := by
  unfold Map.checkTentAt at h
  rw [ht] at h
  by_cases h1 : (m.adjacentTiles l).all (fun t => t ≠ Tile.tree) = true
  · rw [if_pos h1] at h
    exact Except.noConfusion h
  · rw [if_neg h1] at h
    constructor
    · rw [List.all_eq_true] at h1
      push_neg at h1
      obtain ⟨t, ht2, hne⟩ := h1
      have h3 : t = Tile.tree := by simpa using hne
      rw [← h3]
      exact ht2
    · by_cases h2 : (m.neighborTiles l).any (fun t => t == Tile.tent) = true
      · rw [if_pos h2] at h
        exact Except.noConfusion h
      · intro hmem
        apply h2
        rw [List.any_eq_true]
        exact ⟨Tile.tent, hmem, by simp⟩

/-- In-bounds locations are enumerated by the grid iterator. -/
theorem mem_gridIter (h w r c : Nat) (hr : r < h) (hc : c < w) :
    (⟨r, c⟩ : Loc) ∈ Loc.gridIter (h, w) := by
  simp only [Loc.gridIter]
  rw [List.mem_map]
  refine ⟨r * w + c, ?_, ?_⟩
  · rw [List.mem_range]
    have h1 : r + 1 ≤ h := hr
    calc r * w + c < r * w + w := by omega
    _ = (r + 1) * w := by ring
    _ ≤ h * w := Nat.mul_le_mul_right w h1
  · have hw : 0 < w := by omega
    show (⟨(r * w + c) / w, (r * w + c) % w⟩ : Loc) = ⟨r, c⟩
    have h1 : (r * w + c) / w = r := by
      rw [Nat.mul_comm r w, Nat.mul_add_div hw, Nat.div_eq_of_lt hc]
      omega
    have h2 : (r * w + c) % w = c := by
      rw [Nat.mul_comm r w, Nat.mul_add_mod]
      exact Nat.mod_eq_of_lt hc
    rw [h1, h2]

/-- A `get` hit is inside the map's dimensions (for well-formed maps). -/
theorem get_some_bounds (m : Map) (hwf : m.WF) (l : Loc) (t : Tile)
    (h : m.get l = some t) : l.row < m.height ∧ l.col < m.width := by
  unfold Map.get at h
  cases hrow : m.tiles.get? l.row with
  | none =>
    rw [hrow] at h
    cases h
  | some row =>
    rw [hrow] at h
    simp only [Option.some_bind] at h
    have h1 := (List.get?_eq_some.mp hrow).1
    have h2 := (List.get?_eq_some.mp h).1
    have h3 := hwf.2 row (List.get?_mem hrow)
    refine ⟨h1, ?_⟩
    unfold Map.width
    omega

/-- **C3**.  A map returned by the camping solver as `Ok(Some(sol))` has
no free tile, exact row and column tent counts, a tree orthogonally
adjacent to every tent, and no two tents within a king's move of each
other. -/
theorem camping_solve_solution_valid (fuel : Nat) (m sol : Map)
    (hwf : m.WF) (h : solve fuel m = some (.ok (some sol))) :
    sol.noFree = true ∧ sol.rowCountsExact ∧ sol.colCountsExact ∧
    sol.tentsByTrees ∧ sol.tentsApart := by
  unfold solve at h
  cases hp : presolve m with
  | error e =>
    rw [hp] at h
    injection h with h2
    exact Except.noConfusion h2
  | ok m2 =>
    rw [hp] at h
    have hwf2 : m2.WF := presolve_WF m m2 hwf hp
    obtain ⟨hsolwf, hcomp⟩ := solveLoop_sound fuel m2 [] sol hwf2
      (by intro f hf; cases hf) h
    obtain ⟨hnf, hval⟩ := isComplete_parts sol hcomp
    obtain ⟨hrows, hcols, htents⟩ := isValid_parts sol hval
    refine ⟨hnf, rowCountsExact_of sol hrows hnf,
      colCountsExact_of sol hcols hnf, ?_, ?_⟩
    · intro l hl
      have hb := get_some_bounds sol hsolwf l Tile.tent hl
      have hmem : l ∈ Loc.gridIter sol.dim :=
        mem_gridIter sol.height sol.width l.row l.col hb.1 hb.2
      have hok := validTents_go_spec sol (Loc.gridIter sol.dim) htents l hmem
      exact (checkTentAt_props sol l hl hok).1
    · intro l hl
      have hb := get_some_bounds sol hsolwf l Tile.tent hl
      have hmem : l ∈ Loc.gridIter sol.dim :=
        mem_gridIter sol.height sol.width l.row l.col hb.1 hb.2
      have hok := validTents_go_spec sol (Loc.gridIter sol.dim) htents l hmem
      exact (checkTentAt_props sol l hl hok).2

/-- Witness for the solved-map theorem on a concrete 1×2 map solved with
a single tent. -/
theorem camping_solve_solution_valid_witness :
    (Map.mk [[Tile.tree, Tile.tent]] [1] [0, 1]).noFree = true ∧
    (Map.mk [[Tile.tree, Tile.tent]] [1] [0, 1]).rowCountsExact ∧
    (Map.mk [[Tile.tree, Tile.tent]] [1] [0, 1]).colCountsExact ∧
    (Map.mk [[Tile.tree, Tile.tent]] [1] [0, 1]).tentsByTrees ∧
    (Map.mk [[Tile.tree, Tile.tent]] [1] [0, 1]).tentsApart :=
  camping_solve_solution_valid 3 (Map.mk [[Tile.tree, Tile.free]] [1] [0, 1])
    (Map.mk [[Tile.tree, Tile.tent]] [1] [0, 1]) (by decide) (by decide)

/-- Witness for the presolve theorem at the concrete map `contraMap`. -/
theorem camping_presolve_mono_idem_witness :
    contraPresolved.rowReq = contraMap.rowReq ∧
    contraPresolved.colReq = contraMap.colReq ∧
    (∀ l, contraPresolved.get l = contraMap.get l ∨
      (contraMap.get l = some Tile.free ∧
        contraPresolved.get l = some Tile.blocked)) ∧
    presolve contraPresolved = .ok contraPresolved :=
  camping_presolve_mono_idem contraMap contraPresolved (by decide)

end Camping

namespace Sudoku

/-- **C7** (counterexample).  The claim quantifies over *every*
empty-placeholder character; with `c = '1'` the formatted digit `1` is
re-parsed as an empty cell, so the round trip loses the board. -/
theorem sudoku_roundtrip_claim_false :
    Board.fromLine (Board.formatLine
      (BoardCell.value 1 :: List.replicate 80 BoardCell.empty) '1') '1' =
      .ok (List.replicate 81 BoardCell.empty) ∧
    (BoardCell.value 1 :: List.replicate 80 BoardCell.empty : Board) ≠
      List.replicate 81 BoardCell.empty := by
  decide

/-- `Except.ok` on the left of a bind reduces. -/
theorem except_bind_ok {ε α β : Type} (a : α) (f : α → Except ε β) :
    (Except.ok a : Except ε α) >>= f = f a := rfl

/-- `pure` into `Except` is `ok`. -/
theorem except_pure {ε α : Type} (a : α) :
    (pure a : Except ε α) = Except.ok a := rfl

/-- One formatted cell parses back to itself when the empty character is
not a digit `1`-`9`. -/
theorem parseCell_roundtrip (c : Char)
    (hdig : ∀ v, 1 ≤ v → v ≤ 9 → c ≠ Char.ofNat ('0'.toNat + v))
    (cell : BoardCell) (hcell : ∀ v, cell = .value v → 1 ≤ v ∧ v ≤ 9) :
    parseCell c (BoardCell.toChar c cell) = .ok cell := by
  cases cell with
  | empty =>
    show parseCell c c = .ok .empty
    unfold parseCell
    rw [if_pos rfl]
  | value v =>
    obtain ⟨h1, h9⟩ := hcell v rfl
    show parseCell c (Char.ofNat ('0'.toNat + v)) = .ok (.value v)
    unfold parseCell
    rw [if_neg (fun heq => hdig v h1 h9 heq.symm)]
    interval_cases v <;> rfl

/-- Formatted cells parse back cell by cell. -/
theorem parseCells_roundtrip (c : Char)
    (hdig : ∀ v, 1 ≤ v → v ≤ 9 → c ≠ Char.ofNat ('0'.toNat + v)) :
    ∀ (b : List BoardCell),
    (∀ cell ∈ b, ∀ v, cell = .value v → 1 ≤ v ∧ v ≤ 9) →
    parseCells c (b.map (BoardCell.toChar c)) = .ok b := by
  intro b
  induction b with
  | nil => intro _; rfl
  | cons cell rest ih =>
    intro h
    have h1 : parseCell c (BoardCell.toChar c cell) = .ok cell :=
      parseCell_roundtrip c hdig cell (h cell (by simp))
    have h2 := ih (fun x hx v hv => h x (by simp [hx]) v hv)
    simp only [List.map_cons, parseCells, h1, h2, except_bind_ok,
      except_pure]

/-- A formatted cell is a one-byte character distinct from `'\n'` and
`'\r'` whenever the placeholder is. -/
theorem toChar_props (c : Char) (hsize : c.utf8Size = 1) (hnl : c ≠ '\n')
    (hcr : c ≠ '\r') (cell : BoardCell)
    (hcell : ∀ v, cell = .value v → 1 ≤ v ∧ v ≤ 9) :
    (BoardCell.toChar c cell).utf8Size = 1 ∧
    BoardCell.toChar c cell ≠ '\n' ∧ BoardCell.toChar c cell ≠ '\r' := by
  cases cell with
  | empty => exact ⟨hsize, hnl, hcr⟩
  | value v =>
    obtain ⟨h1, h9⟩ := hcell v rfl
    show (Char.ofNat ('0'.toNat + v)).utf8Size = 1 ∧
      Char.ofNat ('0'.toNat + v) ≠ '\n' ∧ Char.ofNat ('0'.toNat + v) ≠ '\r'
    interval_cases v <;> exact ⟨by decide, by decide, by decide⟩

/-- One-byte characters make `str::len` count characters. -/
theorem utf8Len_eq_length : ∀ (cs : List Char),
    (∀ ch ∈ cs, ch.utf8Size = 1) → utf8Len cs = cs.length := by
  intro cs
  induction cs with
  | nil => intro _; rfl
  | cons a rest ih =>
    intro h
    simp only [utf8Len, List.map_cons, List.sum_cons, List.length_cons]
    have h2 := ih (fun x hx => h x (by simp [hx]))
    simp only [utf8Len] at h2
    rw [h a (by simp), h2]
    omega

/-- Byte length distributes over append. -/
theorem utf8Len_append (xs ys : List Char) :
    utf8Len (xs ++ ys) = utf8Len xs + utf8Len ys := by
  unfold utf8Len
  rw [List.map_append, List.sum_append]

/-- `from_line` undoes `format_line` whenever the empty character is a
one-byte non-digit. -/
theorem fromLine_roundtrip (b : Board) (c : Char) (hwf : b.WF)
    (hsize : c.utf8Size = 1) (hnl : c ≠ '\n') (hcr : c ≠ '\r')
    (hdig : ∀ v, 1 ≤ v → v ≤ 9 → c ≠ Char.ofNat ('0'.toNat + v)) :
    Board.fromLine (Board.formatLine b c) c = .ok b := by
  obtain ⟨hlen81, hvals⟩ := hwf
  have hsizes : ∀ ch ∈ Board.formatLine b c, ch.utf8Size = 1 := by
    intro ch hch
    rw [Board.formatLine, List.mem_map] at hch
    obtain ⟨cell, hcell, hch2⟩ := hch
    rw [← hch2]
    exact (toChar_props c hsize hnl hcr cell (hvals cell hcell)).1
  have hlen : utf8Len (Board.formatLine b c) = 81 := by
    rw [utf8Len_eq_length _ hsizes]
    simp only [Board.formatLine, List.length_map]
    exact hlen81
  have hparse : parseCells c (Board.formatLine b c) = .ok b :=
    parseCells_roundtrip c hdig b hvals
  simp only [Board.fromLine, hlen, hparse, except_bind_ok, except_pure]
  rw [if_neg (by omega)]
  rw [if_pos hlen81]

/-- One unfolding of `splitNl` at a cons. -/
theorem splitNl_cons (a : Char) (rest : List Char) :
    splitNl (a :: rest) = if a = '\n' then [] :: splitNl rest
      else match splitNl rest with
        | [] => [[a]]
        | part :: parts => (a :: part) :: parts := rfl

/-- Splitting off one newline-terminated line. -/
theorem splitNl_line (cs rest : List Char) (h : ∀ ch ∈ cs, ch ≠ '\n') :
    splitNl (cs ++ '\n' :: rest) = cs :: splitNl rest := by
  induction cs with
  | nil =>
    simp only [List.nil_append]
    rw [splitNl_cons, if_pos rfl]
  | cons a tail ih =>
    simp only [List.cons_append]
    rw [splitNl_cons, if_neg (h a (by simp)),
      ih (fun x hx => h x (by simp [hx]))]

/-- `stripCr` is the identity on lines without `'\r'`. -/
theorem stripCr_eq (cs : List Char) (h : ∀ ch ∈ cs, ch ≠ '\r') :
    stripCr cs = cs := by
  unfold stripCr
  split
  · rename_i heq
    exfalso
    have hmem : '\r' ∈ cs := List.mem_of_mem_getLast? heq
    exact h '\r' hmem rfl
  · rfl

/-- `stripCr` maps to the identity on a clean line list. -/
theorem map_stripCr (rows : List (List Char))
    (h : ∀ row ∈ rows, ∀ ch ∈ row, ch ≠ '\r') :
    rows.map stripCr = rows := by
  induction rows with
  | nil => rfl
  | cons row rest ih =>
    simp only [List.map_cons]
    rw [stripCr_eq row (h row (by simp)),
      ih (fun r hr ch hch => h r (by simp [hr]) ch hch)]

/-- `splitNl` recovers the newline-joined rows (plus a final empty
part). -/
theorem splitNl_foldr (rows : List (List Char))
    (h : ∀ row ∈ rows, ∀ ch ∈ row, ch ≠ '\n') :
    splitNl (rows.foldr (fun row acc => row ++ '\n' :: acc) []) =
      rows ++ [[]] := by
  induction rows with
  | nil => rfl
  | cons row rest ih =>
    simp only [List.foldr_cons, List.cons_append]
    rw [splitNl_line row _ (h row (by simp)),
      ih (fun r hr ch hch => h r (by simp [hr]) ch hch)]

/-- `str::lines` recovers the newline-joined rows. -/
theorem linesModel_foldr (rows : List (List Char))
    (h : ∀ row ∈ rows, ∀ ch ∈ row, ch ≠ '\n' ∧ ch ≠ '\r') :
    linesModel (rows.foldr (fun row acc => row ++ '\n' :: acc) []) =
      rows := by
  simp only [linesModel]
  rw [splitNl_foldr rows (fun r hr ch hch => (h r hr ch hch).1)]
  rw [if_pos (List.getLast?_concat rows)]
  rw [List.dropLast_concat]
  exact map_stripCr rows (fun r hr ch hch => (h r hr ch hch).2)

/-- Parsing formatted grid lines returns their concatenation. -/
theorem parseGridLines_rows (c : Char) (hsize : c.utf8Size = 1)
    (hnl : c ≠ '\n') (hcr : c ≠ '\r')
    (hdig : ∀ v, 1 ≤ v → v ≤ 9 → c ≠ Char.ofNat ('0'.toNat + v)) :
    ∀ (rows : List (List BoardCell)),
    (∀ row ∈ rows, row.length = 9 ∧
      ∀ cell ∈ row, ∀ v, cell = .value v → 1 ≤ v ∧ v ≤ 9) →
    parseGridLines c (rows.map (fun row => row.map (BoardCell.toChar c)))
      = .ok rows.join := by
  intro rows
  induction rows with
  | nil => intro _; rfl
  | cons row rest ih =>
    intro h
    obtain ⟨hlen, hvals⟩ := h row (by simp)
    have hl9 : utf8Len (row.map (BoardCell.toChar c)) = 9 := by
      rw [utf8Len_eq_length]
      · rw [List.length_map]
        exact hlen
      · intro ch hch
        rw [List.mem_map] at hch
        obtain ⟨cell, hcell, hch2⟩ := hch
        rw [← hch2]
        exact (toChar_props c hsize hnl hcr cell (hvals cell hcell)).1
    have hparse := parseCells_roundtrip c hdig row hvals
    have hrest := ih (fun r hr => h r (by simp [hr]))
    simp only [List.map_cons, parseGridLines, hl9, hparse, hrest,
      except_bind_ok, except_pure]
    rw [if_neg (by omega)]
    simp only [except_bind_ok, List.join_cons]

/-- The chunking of `chunks_exact(9)`: nine-cell chunks joining back to
the input. -/
theorem chunksGo_spec : ∀ (k fuel : Nat) (l : List BoardCell),
    l.length = 9 * k → k ≤ fuel →
    (chunksExact9Go fuel l).length = k ∧
    (∀ ch ∈ chunksExact9Go fuel l, ch.length = 9) ∧
    (chunksExact9Go fuel l).join = l := by
  intro k
  induction k with
  | zero =>
    intro fuel l hl hk
    have hnil : l = [] := List.eq_nil_of_length_eq_zero (by omega)
    subst hnil
    cases fuel with
    | zero =>
      refine ⟨rfl, ?_, rfl⟩
      intro ch hch
      cases hch
    | succ f =>
      simp only [chunksExact9Go]
      rw [if_pos (by simp)]
      refine ⟨rfl, ?_, rfl⟩
      intro ch hch
      cases hch
  | succ k ih =>
    intro fuel l hl hk
    cases fuel with
    | zero => omega
    | succ f =>
      have h9 : ¬(l.length < 9) := by omega
      simp only [chunksExact9Go]
      rw [if_neg h9]
      have hdrop : (l.drop 9).length = 9 * k := by
        rw [List.length_drop]
        omega
      obtain ⟨hcount, hall, hjoin⟩ := ih f (l.drop 9) hdrop (by omega)
      refine ⟨by simp [hcount], ?_, ?_⟩
      · intro ch hch
        rcases List.mem_cons.mp hch with rfl | hmem
        · rw [List.length_take]
          omega
        · exact hall ch hmem
      · show List.take 9 l ++ (chunksExact9Go f (List.drop 9 l)).join = l
        rw [hjoin, List.take_append_drop]

/-- Byte length of a newline-joined line list. -/
theorem utf8Len_foldr (rows : List (List Char)) :
    utf8Len (rows.foldr (fun row acc => row ++ '\n' :: acc) []) =
      (rows.map utf8Len).sum + rows.length := by
  induction rows with
  | nil => rfl
  | cons row rest ih =>
    simp only [List.foldr_cons, List.map_cons, List.sum_cons,
      List.length_cons]
    rw [utf8Len_append]
    have hnlc : utf8Len ('\n' ::
        rest.foldr (fun row acc => row ++ '\n' :: acc) []) =
        1 + utf8Len (rest.foldr (fun row acc => row ++ '\n' :: acc) []) := by
      simp only [utf8Len, List.map_cons, List.sum_cons]
      rfl
    rw [hnlc, ih]
    omega

/-- Sum of the byte lengths of nine-byte lines. -/
theorem sum_utf8Len_nine : ∀ (xs : List (List Char)),
    (∀ x ∈ xs, utf8Len x = 9) → (xs.map utf8Len).sum = 9 * xs.length := by
  intro xs
  induction xs with
  | nil => intro _; rfl
  | cons x rest ih =>
    intro h
    simp only [List.map_cons, List.sum_cons, List.length_cons]
    rw [h x (by simp), ih (fun y hy => h y (by simp [hy]))]
    ring

/-- `from_grid` undoes `format_compact_grid` whenever the empty
character is a one-byte non-digit. -/
theorem fromGrid_roundtrip (b : Board) (c : Char) (hwf : b.WF)
    (hsize : c.utf8Size = 1) (hnl : c ≠ '\n') (hcr : c ≠ '\r')
    (hdig : ∀ v, 1 ≤ v → v ≤ 9 → c ≠ Char.ofNat ('0'.toNat + v)) :
    Board.fromGrid (Board.formatCompactGrid b c) c = .ok b := by
  obtain ⟨hlen81, hvals⟩ := hwf
  obtain ⟨hcount0, hall0, hjoin0⟩ :=
    chunksGo_spec 9 b.length b (by omega) (by omega)
  have hcount : (chunksExact9 b).length = 9 := hcount0
  have hall : ∀ ch ∈ chunksExact9 b, ch.length = 9 := hall0
  have hjoin : (chunksExact9 b).join = b := hjoin0
  have hchunks : ∀ row ∈ chunksExact9 b, row.length = 9 ∧
      ∀ cell ∈ row, ∀ v, cell = .value v → 1 ≤ v ∧ v ≤ 9 := by
    intro row hrow
    refine ⟨hall row hrow, ?_⟩
    intro cell hcell v hv
    have hmem : cell ∈ b := by
      rw [← hjoin]
      exact List.mem_join_of_mem hrow hcell
    exact hvals cell hmem v hv
  have hfmt : Board.formatCompactGrid b c =
      ((chunksExact9 b).map (fun row => row.map (BoardCell.toChar c))).foldr
        (fun row acc => row ++ '\n' :: acc) [] := by
    unfold Board.formatCompactGrid
    rw [List.foldr_map]
  have hrowprops : ∀ row ∈ (chunksExact9 b).map
      (fun row => row.map (BoardCell.toChar c)),
      (∀ ch ∈ row, ch ≠ '\n' ∧ ch ≠ '\r') ∧ utf8Len row = 9 := by
    intro row hrow
    rw [List.mem_map] at hrow
    obtain ⟨crow, hcrow, hrow2⟩ := hrow
    obtain ⟨hclen, hcvals⟩ := hchunks crow hcrow
    constructor
    · intro ch hch
      rw [← hrow2, List.mem_map] at hch
      obtain ⟨cell, hcell, hch2⟩ := hch
      rw [← hch2]
      exact (toChar_props c hsize hnl hcr cell (hcvals cell hcell)).2
    · rw [← hrow2]
      rw [utf8Len_eq_length]
      · rw [List.length_map]
        exact hclen
      · intro ch hch
        rw [List.mem_map] at hch
        obtain ⟨cell, hcell, hch2⟩ := hch
        rw [← hch2]
        exact (toChar_props c hsize hnl hcr cell (hcvals cell hcell)).1
  have hlen90 : utf8Len (Board.formatCompactGrid b c) = 90 := by
    rw [hfmt, utf8Len_foldr,
      sum_utf8Len_nine _ (fun x hx => (hrowprops x hx).2),
      List.length_map, hcount]
  have hlines : linesModel (Board.formatCompactGrid b c) =
      (chunksExact9 b).map (fun row => row.map (BoardCell.toChar c)) := by
    rw [hfmt]
    exact linesModel_foldr _ (fun r hr ch hch => (hrowprops r hr).1 ch hch)
  have hparse : parseGridLines c (linesModel (Board.formatCompactGrid b c))
      = .ok b := by
    rw [hlines, parseGridLines_rows c hsize hnl hcr hdig _ hchunks, hjoin]
  simp only [Board.fromGrid, hlen90, hparse, except_bind_ok, except_pure]
  rw [if_neg (by omega)]
  rw [if_pos hlen81]

/-- **C7** (amended).  The round trips `from_line ∘ format_line` and
`from_grid ∘ format_compact_grid` recover the board for every well-formed
board and every empty-placeholder character that is a single UTF-8 byte,
is not a digit `1`-`9`, and is neither `'\n'` nor `'\r'`; the original
claim's unrestricted quantification over the placeholder fails (see the
counterexample). -/
theorem sudoku_roundtrip (b : Board) (c : Char) (hwf : b.WF)
    (hsize : c.utf8Size = 1) (hnl : c ≠ '\n') (hcr : c ≠ '\r')
    (hdig : ∀ v, 1 ≤ v → v ≤ 9 → c ≠ Char.ofNat ('0'.toNat + v)) :
    Board.fromLine (Board.formatLine b c) c = .ok b ∧
    Board.fromGrid (Board.formatCompactGrid b c) c = .ok b :=
  ⟨fromLine_roundtrip b c hwf hsize hnl hcr hdig,
    fromGrid_roundtrip b c hwf hsize hnl hcr hdig⟩

/-- Witness for the amended round trip at a concrete board and the
placeholder `'.'`. -/
theorem sudoku_roundtrip_witness :
    Board.fromLine (Board.formatLine
      (BoardCell.value 5 :: List.replicate 80 BoardCell.empty) '.') '.' =
      .ok (BoardCell.value 5 :: List.replicate 80 BoardCell.empty) ∧
    Board.fromGrid (Board.formatCompactGrid
      (BoardCell.value 5 :: List.replicate 80 BoardCell.empty) '.') '.' =
      .ok (BoardCell.value 5 :: List.replicate 80 BoardCell.empty) :=
  sudoku_roundtrip (BoardCell.value 5 :: List.replicate 80 BoardCell.empty)
    '.'
    ⟨by simp, by
      intro cell hc v hv
      rcases List.mem_cons.mp hc with rfl | hmem
      · injection hv with h2
        omega
      · rw [List.eq_of_mem_replicate hmem] at hv
        cases hv⟩
    (by decide) (by decide) (by decide)
    (fun v h1 h9 => by interval_cases v <;> decide)

end Sudoku

end Puzzles
